import Mathlib

/-!
# Verification of the pocket-tts-ios inference core

A shallow embedding, in Lean 4, of the Rust crate `pocket-tts-ios`
(tokenizer, configuration validation, audio post-processing, rotary
position encoding, multi-head attention with KV cache, the FlowLM
transformer backbone, the MLP consistency sampler, the SEANet/Mimi
convolutional decoder, and the streaming controller), together with
theorems settling the specification claims about this code.

Modelling conventions:
* `f32`/`f64` scalars are embedded as `ℚ` (exact arithmetic; the claims
  under study allow floating-point rounding tolerance, so rational
  arithmetic is the idealised semantics of the float code).
* Transcendental primitives supplied by the numeric backend (`exp`
  inside softmax/sigmoid, `sqrt`, `tanh`, `gelu_erf`) are not
  rational-valued; they are passed in as an explicit `NumOps`
  dictionary of `ℚ → ℚ` functions, mirroring the fact that the crate
  delegates them to the candle library.  Structural theorems below hold
  for every choice of `NumOps`; concrete evaluations instantiate it.
* candle tensors are embedded as `Tq`: a dynamic shape (`dims`) plus
  flat row-major `data`.  Each tensor operation used by the crate is
  embedded with the shape checks candle performs, returning
  `Except String Tq`.
* The pair "`broadcast_add` of a zero-or-minus-infinity causal mask,
  then `softmax`"
  is embedded as one masked-softmax step (`-∞` is not a rational;
  masked entries receive weight `0`, which is the exact semantics of
  the float code), keeping the mask formula `j ≤ i + (kv_len - q_len)`
  verbatim.
-/

namespace PocketTTS

/-! ## audio.rs -/

namespace Audio

/-- The peak computation inside `normalize`:
`samples.iter().map(|s| s.abs()).fold(0.0f32, f32::max)`. -/
def peakAbs (samples : List ℚ) : ℚ :=
  samples.foldl (fun m s => max m |s|) 0

/-- `audio::normalize`: scale by `0.95 / max_abs` when
`max_abs > 0.0 && max_abs != 1.0`, otherwise leave the buffer alone
(the Rust code mutates in place; embedded as a pure function). -/
def normalize (samples : List ℚ) : List ℚ :=
  let max_abs := peakAbs samples
  if 0 < max_abs ∧ max_abs ≠ 1 then
    samples.map (fun s => s * (0.95 / max_abs))
  else
    samples

/-- `audio::duration_seconds` (over `ℚ`). -/
def duration_seconds (sample_count : ℕ) (sample_rate : ℕ) : ℚ :=
  (sample_count : ℚ) / (sample_rate : ℚ)

end Audio

/-! ## config.rs -/

/-- `TTSConfig` (u32 fields as `ℕ`, f32 fields as `ℚ`). -/
structure TTSConfig where
  voice_index : ℕ
  temperature : ℚ
  top_p : ℚ
  speed : ℚ
  consistency_steps : ℕ
  use_fixed_seed : Bool
  seed : ℕ
deriving Repr, DecidableEq

/-- `TTSConfig::default`. -/
def TTSConfig.default : TTSConfig :=
  { voice_index := 0
    temperature := 0.7
    top_p := 0.9
    speed := 1.0
    consistency_steps := 2
    use_fixed_seed := false
    seed := 42 }

/-- `TTSConfig::low_latency`. -/
def TTSConfig.low_latency : TTSConfig :=
  { TTSConfig.default with consistency_steps := 1 }

/-- `TTSConfig::high_quality`. -/
def TTSConfig.high_quality : TTSConfig :=
  { TTSConfig.default with consistency_steps := 4, temperature := 0.5 }

/-- `TTSConfig::validate`.  The numeric renderings inside the messages
use `toString` on `ℚ`/`ℕ` where Rust formats the field value; the
field-naming prefix of each message is verbatim. -/
def TTSConfig.validate (c : TTSConfig) : Except String Unit :=
  if c.voice_index > 7 then
    .error ("Voice index must be 0-7, got " ++ toString c.voice_index)
  else if c.temperature < 0 ∨ c.temperature > 1 then
    .error ("Temperature must be 0.0-1.0, got " ++ toString c.temperature)
  else if c.top_p < 0.1 ∨ c.top_p > 1 then
    .error ("Top-P must be 0.1-1.0, got " ++ toString c.top_p)
  else if c.speed < 0.5 ∨ c.speed > 2 then
    .error ("Speed must be 0.5-2.0, got " ++ toString c.speed)
  else if c.consistency_steps < 1 ∨ c.consistency_steps > 4 then
    .error ("Consistency steps must be 1-4, got " ++ toString c.consistency_steps)
  else
    .ok ()

/-! ## tokenizer.rs

The `HashMap<String, u32>` vocabulary is embedded as an association
list (JSON objects have unique keys); `from_json`'s body after parsing
is `PocketTokenizer.fromVocab`. -/

/-- `HashMap::get` on the vocabulary. -/
def vocabGet (vocab : List (String × ℕ)) (s : String) : Option ℕ :=
  (vocab.find? (fun p => p.1 == s)).map (·.2)

/-- The reverse-mapping construction in `from_json`:
start from `vec![String::new(); vocab.len()]` and set slot `id` to the
token whenever `id < len`. -/
def buildIdToToken (vocab : List (String × ℕ)) : List String :=
  vocab.foldl
    (fun acc p => if p.2 < acc.length then acc.set p.2 p.1 else acc)
    (List.replicate vocab.length "")

structure PocketTokenizer where
  token_to_id : List (String × ℕ)
  id_to_token : List String
  bos_id : Option ℕ
  eos_id : Option ℕ
  pad_id : Option ℕ
  unk_id : ℕ
deriving Repr, DecidableEq

/-- `PocketTokenizer::from_json`, after JSON parsing. -/
def PocketTokenizer.fromVocab (vocab : List (String × ℕ)) : PocketTokenizer :=
  { token_to_id := vocab
    id_to_token := buildIdToToken vocab
    bos_id := vocabGet vocab "<s>"
    eos_id := vocabGet vocab "</s>"
    pad_id := vocabGet vocab "<pad>"
    unk_id := (vocabGet vocab "<unk>").getD 0 }

/-- The inner `while end > i` longest-match loop of `encode`: try the
prefix of length `ℓ`, then `ℓ-1`, …, then `1`; first hit wins.
Returns the matched length and its id. -/
def tryLens (vocab : List (String × ℕ)) (cs : List Char) : ℕ → Option (ℕ × ℕ)
  | 0 => none
  | (l + 1) =>
    match vocabGet vocab (String.mk (cs.take (l + 1))) with
    | some id => some (l + 1, id)
    | none => tryLens vocab cs l

/-- Longest match at the current position, capped at 10 characters
(`let mut end = chars.len().min(i + 10)`). -/
def longestMatch (vocab : List (String × ℕ)) (cs : List Char) : Option (ℕ × ℕ) :=
  tryLens vocab cs (min 10 cs.length)

/-- The `while i < chars.len()` loop of `encode`.  On a match of length
`ℓ` the Rust code advances `i` by `ℓ`; `tryLens` only returns `ℓ ≥ 1`,
so `(c :: rest).drop ℓ = rest.drop (ℓ - 1)`, which is the form used
here for termination.  On no match, fall back to the single character,
then to the unknown id. -/
def encodeLoop (vocab : List (String × ℕ)) (unk : ℕ) : List Char → List ℕ
  | [] => []
  | c :: rest =>
    match longestMatch vocab (c :: rest) with
    | some (l, id) => id :: encodeLoop vocab unk (rest.drop (l - 1))
    | none =>
      ((vocabGet vocab (String.mk [c])).getD unk) :: encodeLoop vocab unk rest
termination_by cs => cs.length
decreasing_by
  · simp [List.length_drop]; omega
  · simp

/-- `PocketTokenizer::encode` (it never returns `Err`; embedded as the
token list): optional BOS, the greedy loop over `text.chars()`,
optional EOS. -/
def PocketTokenizer.encode (tk : PocketTokenizer) (text : String) : List ℕ :=
  tk.bos_id.toList ++ encodeLoop tk.token_to_id tk.unk_id text.toList ++ tk.eos_id.toList

/-- `PocketTokenizer::decode` (always `Ok`; embedded as the string):
skip ids equal to BOS/EOS/PAD, map others through `id_to_token`,
out-of-range ids become U+FFFD. -/
def PocketTokenizer.decode (tk : PocketTokenizer) (ids : List ℕ) : String :=
  ids.foldl
    (fun text id =>
      if some id = tk.bos_id ∨ some id = tk.eos_id ∨ some id = tk.pad_id then
        text
      else
        match tk.id_to_token.get? id with
        | some tok => text ++ tok
        | none => text.push (Char.ofNat 0xFFFD))
    ""

end PocketTTS

namespace PocketTTS

/-! ## The tensor model

candle tensors are embedded as a dynamic shape plus flat row-major
data over `ℚ`.  Fallible candle operations return `Except String Tq`
and perform the shape checks candle performs on the code paths the
crate exercises. -/

structure Tq where
  dims : List ℕ
  data : List ℚ
deriving Repr, DecidableEq

deriving instance DecidableEq for Except

/-- Split a flat list into consecutive chunks of `k` (the last chunk
may be short); used to view row-major data as rows. -/
def chunkList (k : ℕ) (l : List ℚ) : List (List ℚ) :=
  if hk : k = 0 ∨ l = [] then []
  else (l.take k) :: chunkList k (l.drop k)
termination_by l.length
decreasing_by
  rw [not_or] at hk
  simp only [List.length_drop]
  have h1 : 0 < k := Nat.pos_of_ne_zero hk.1
  have h2 : l.length ≠ 0 := fun hn => hk.2 (List.eq_nil_of_length_eq_zero hn)
  omega

/-- `Vec<T>::chunks` on token-id lists (also reused by the streaming
controller). -/
def chunkNat (k : ℕ) (l : List ℕ) : List (List ℕ) :=
  if hk : k = 0 ∨ l = [] then []
  else (l.take k) :: chunkNat k (l.drop k)
termination_by l.length
decreasing_by
  rw [not_or] at hk
  simp only [List.length_drop]
  have h1 : 0 < k := Nat.pos_of_ne_zero hk.1
  have h2 : l.length ≠ 0 := fun hn => hk.2 (List.eq_nil_of_length_eq_zero hn)
  omega

/-- Row-major multi-index of flat index `i` under `dims`. -/
def unflattenIdx : List ℕ → ℕ → List ℕ
  | [], _ => []
  | _ :: ds, i => (i / ds.prod) :: unflattenIdx ds (i % ds.prod)

/-- Row-major flat index of multi-index `c` under `dims`. -/
def flattenIdx : List ℕ → List ℕ → ℕ
  | d :: ds, c :: cs => c * ds.prod + flattenIdx ds cs
  | _, _ => 0

namespace Tq

/-- `Tensor::dim(i)` (an error when the rank is too small). -/
def dim (t : Tq) (i : ℕ) : Except String ℕ :=
  match t.dims.get? i with
  | some d => .ok d
  | none => .error "dim out of range"

/-- Read one element at multi-index `c` (0 outside range; the
operations below only read in range). -/
def at' (t : Tq) (c : List ℕ) : ℚ :=
  (t.data.get? (flattenIdx t.dims c)).getD 0

/-- Build a tensor of shape `dims` from an element function. -/
def ofFn (dims : List ℕ) (f : List ℕ → ℚ) : Tq :=
  ⟨dims, (List.range dims.prod).map (fun i => f (unflattenIdx dims i))⟩

/-- `Tensor::reshape` (element count must match). -/
def reshape (t : Tq) (newDims : List ℕ) : Except String Tq :=
  if t.dims.prod = newDims.prod then .ok ⟨newDims, t.data⟩
  else .error "reshape: shape mismatch"

/-- `Tensor::transpose(d1, d2)`. -/
def transpose (t : Tq) (d1 d2 : ℕ) : Except String Tq :=
  if d1 < t.dims.length ∧ d2 < t.dims.length then
    let newDims := (t.dims.set d1 (t.dims.getD d2 0)).set d2 (t.dims.getD d1 0)
    .ok (ofFn newDims (fun c => t.at' ((c.set d1 (c.getD d2 0)).set d2 (c.getD d1 0))))
  else .error "transpose: dim out of range"

/-- `Tensor::narrow(dim, start, len)`. -/
def narrow (t : Tq) (d start len : ℕ) : Except String Tq :=
  if d < t.dims.length ∧ start + len ≤ t.dims.getD d 0 then
    .ok (ofFn (t.dims.set d len) (fun c => t.at' (c.set d (c.getD d 0 + start))))
  else .error "narrow: out of range"

/-- `Tensor::cat(&[a, b], d)`. -/
def catTwo (d : ℕ) (a b : Tq) : Except String Tq :=
  if d < a.dims.length ∧ a.dims.length = b.dims.length ∧
      (∀ i < a.dims.length, i ≠ d → a.dims.getD i 0 = b.dims.getD i 0) then
    let ad := a.dims.getD d 0
    .ok (ofFn (a.dims.set d (ad + b.dims.getD d 0)) (fun c =>
      if c.getD d 0 < ad then a.at' c else b.at' (c.set d (c.getD d 0 - ad))))
  else .error "cat: shape mismatch"

/-- `Tensor::squeeze(d)` (the dimension must be 1). -/
def squeeze (t : Tq) (d : ℕ) : Except String Tq :=
  if t.dims.getD d 0 = 1 ∧ d < t.dims.length then
    .ok ⟨t.dims.take d ++ t.dims.drop (d + 1), t.data⟩
  else .error "squeeze: dim is not 1"

/-- `Tensor::unsqueeze(d)`. -/
def unsqueeze (t : Tq) (d : ℕ) : Except String Tq :=
  if d ≤ t.dims.length then
    .ok ⟨t.dims.take d ++ 1 :: t.dims.drop d, t.data⟩
  else .error "unsqueeze: dim out of range"

/-- Elementwise unary map (dtype/shape preserved). -/
def mapU (t : Tq) (f : ℚ → ℚ) : Tq :=
  ⟨t.dims, t.data.map f⟩

/-- Scalar multiply, `(t * c)`. -/
def scalarMul (t : Tq) (c : ℚ) : Tq := t.mapU (fun v => v * c)

/-- Scalar divide, `(t / c)`. -/
def scalarDiv (t : Tq) (c : ℚ) : Tq := t.mapU (fun v => v / c)

/-- Same-shape elementwise combination (candle `+` / `*` on two
tensors requires identical shapes). -/
def sameBin (f : ℚ → ℚ → ℚ) (a b : Tq) : Except String Tq :=
  if a.dims = b.dims then .ok ⟨a.dims, List.zipWith f a.data b.data⟩
  else .error "binary op: shape mismatch"

def sameAdd (a b : Tq) : Except String Tq := sameBin (· + ·) a b

def sameMul (a b : Tq) : Except String Tq := sameBin (· * ·) a b

def sameSub (a b : Tq) : Except String Tq := sameBin (· - ·) a b

/-- Two-sided broadcasting on reversed (last-dim-first) shape lists:
each pair of dims must be equal or contain a 1, missing leading dims
count as 1. -/
def bcastRev : List ℕ → List ℕ → Option (List ℕ)
  | [], ys => some ys
  | x :: xs, [] => some (x :: xs)
  | x :: xs, y :: ys =>
    if x = y ∨ x = 1 ∨ y = 1 then (bcastRev xs ys).map (fun r => max x y :: r)
    else none

/-- Two-sided broadcasting shape (align from the right).
`none` when incompatible. -/
def broadcastDims (a b : List ℕ) : Option (List ℕ) :=
  (bcastRev a.reverse b.reverse).map List.reverse

/-- Read an element of `t` at a broadcast coordinate `c` of rank
`outRank`: drop the extra leading coordinates and clamp to 0 along
size-1 dims of `t`. -/
def atBroadcast (t : Tq) (outRank : ℕ) (c : List ℕ) : ℚ :=
  let c' := c.drop (outRank - t.dims.length)
  t.at' ((List.range t.dims.length).map (fun i =>
    if t.dims.getD i 0 = 1 then 0 else c'.getD i 0))

/-- `Tensor::broadcast_add` / `broadcast_mul` / `broadcast_div`. -/
def broadcastBin (f : ℚ → ℚ → ℚ) (a b : Tq) : Except String Tq :=
  match broadcastDims a.dims b.dims with
  | some dims =>
    .ok (ofFn dims (fun c =>
      f (a.atBroadcast dims.length c) (b.atBroadcast dims.length c)))
  | none => .error "broadcast: incompatible shapes"

def broadcastAdd (a b : Tq) : Except String Tq := broadcastBin (· + ·) a b

def broadcastMul (a b : Tq) : Except String Tq := broadcastBin (· * ·) a b

def broadcastDiv (a b : Tq) : Except String Tq := broadcastBin (· / ·) a b

/-- `Tensor::dims3` (rank must be exactly 3). -/
def dims3 (t : Tq) : Except String (ℕ × ℕ × ℕ) :=
  match t.dims with
  | [a, b, c] => .ok (a, b, c)
  | _ => .error "dims3: unexpected rank"

/-- Batched `Tensor::matmul`: both operands of equal rank `≥ 2`,
equal batch dims, contracted dims equal. -/
def matmul (a b : Tq) : Except String Tq :=
  match a.dims.reverse, b.dims.reverse with
  | n :: m :: batchA, p :: n' :: batchB =>
    if n = n' ∧ batchA = batchB then
      let batch := batchA.reverse
      .ok (ofFn (batch ++ [m, p]) (fun c =>
        let cb := c.take batch.length
        let i := c.getD batch.length 0
        let j := c.getD (batch.length + 1) 0
        ((List.range n).map (fun t =>
          a.at' (cb ++ [i, t]) * b.at' (cb ++ [t, j]))).sum))
    else .error "matmul: shape mismatch"
  | _, _ => .error "matmul: rank must be at least 2"

end Tq

/-- The numeric primitives the crate delegates to the backend
(`exp` inside softmax, `sigmoid` inside silu, `sqrt`, `tanh`,
`gelu_erf`, trig and powers for the rotary tables).  Structural
theorems hold for every choice; concrete runs pick an instance. -/
structure NumOps where
  ex : ℚ → ℚ
  sigmoidQ : ℚ → ℚ
  sqrtQ : ℚ → ℚ
  tanhQ : ℚ → ℚ
  geluQ : ℚ → ℚ
  cosQ : ℚ → ℚ
  sinQ : ℚ → ℚ
  powQ : ℚ → ℚ → ℚ

/-- A concrete `NumOps` instance for closed evaluations (the
structural facts being evaluated do not depend on the choice). -/
def simpleOps : NumOps :=
  { ex := fun q => 1 + q * q
    sigmoidQ := fun _ => 1/2
    sqrtQ := fun q => q
    tanhQ := fun q => q
    geluQ := fun q => q
    cosQ := fun _ => 1
    sinQ := fun _ => 0
    powQ := fun _ _ => 1 }

/-- `candle_nn::ops::softmax` along the last dimension: per row,
subtract the row maximum, apply `exp`, normalise. -/
def softmaxRow (ops : NumOps) (row : List ℚ) : List ℚ :=
  let m := row.foldl max ((row.headD 0))
  let e := row.map (fun v => ops.ex (v - m))
  let s := e.sum
  e.map (fun v => v / s)

def softmaxLast (ops : NumOps) (t : Tq) : Tq :=
  let last := t.dims.getLast?.getD 0
  ⟨t.dims, ((chunkList last t.data).map (softmaxRow ops)).flatten⟩

/-- One row of masked softmax: entries with `mask = false` received
`-∞` from `create_causal_mask`, hence weight 0; the rest are a
softmax over the allowed entries (max subtracted among allowed). -/
def maskedSoftmaxRow (ops : NumOps) (mask : List Bool) (row : List ℚ) : List ℚ :=
  let allowed := (List.zip row mask).filterMap (fun p => if p.2 then some p.1 else none)
  let m := allowed.foldl max (allowed.headD 0)
  let e := (List.zip row mask).map (fun p => if p.2 then ops.ex (p.1 - m) else 0)
  let s := e.sum
  e.map (fun v => v / s)

/-- Fused embedding of `broadcast_add` of the causal mask followed by
`softmax(..., D::Minus1)` (see the header note): the mask rows are
indexed by the second-to-last coordinate, broadcast over the leading
dims. -/
def maskedSoftmaxLast (ops : NumOps) (t : Tq) (mask : List (List Bool)) : Tq :=
  let last := t.dims.getLast?.getD 0
  let qLen := mask.length
  ⟨t.dims,
    ((chunkList last t.data).enum.map (fun p =>
      maskedSoftmaxRow ops (mask.getD (p.1 % qLen) []) p.2)).flatten⟩

end PocketTTS

namespace PocketTTS

/-! ## Weights and `candle_nn` layers

`VarBuilder` is embedded as a function from a weight path and
requested shape to data; as in candle, the returned tensor always has
the requested shape (`fitData` pads/truncates). -/

def VB : Type := String → List ℕ → List ℚ

/-- `VarBuilder::pp` (path prefixing). -/
def VB.pp (vb : VB) (p : String) : VB := fun n d => vb (p ++ "." ++ n) d

def fitData (dims : List ℕ) (l : List ℚ) : List ℚ :=
  (List.range dims.prod).map (fun i => l.getD i 0)

def vbTensor (vb : VB) (name : String) (dims : List ℕ) : Tq :=
  ⟨dims, fitData dims (vb name dims)⟩

def dotQ (a b : List ℚ) : ℚ := (List.zipWith (· * ·) a b).sum

/-- `candle_nn::Linear` (weight `[out, in]`, bias `[out]`). -/
structure Linear where
  weight : Tq
  bias : Tq
deriving Repr, DecidableEq

/-- `candle_nn::linear(in, out, vb)`. -/
def linearNew (inF outF : ℕ) (vb : VB) : Linear :=
  { weight := vbTensor vb "weight" [outF, inF]
    bias := vbTensor vb "bias" [outF] }

/-- `Linear::forward`: `x.matmul(w.t()) + b`, applied to the last
dimension; rank must be at least 2 and the last dim must equal the
in-features (candle's matmul checks). -/
def Linear.forward (lin : Linear) (x : Tq) : Except String Tq :=
  match lin.weight.dims with
  | [outF, inF] =>
    if 2 ≤ x.dims.length ∧ x.dims.getLast?.getD 0 = inF then
      let wRows := chunkList inF lin.weight.data
      let rows := chunkList inF x.data
      .ok ⟨x.dims.dropLast ++ [outF],
        (rows.map (fun r => (List.range outF).map (fun j =>
          lin.bias.data.getD j 0 + dotQ (wRows.getD j []) r))).flatten⟩
    else .error "matmul: shape mismatch"
  | _ => .error "linear: bad weight shape"

/-! ## modules/rotary.rs -/

structure RotaryEmbedding where
  cos_cache : Tq
  sin_cache : Tq
  dim : ℕ
  max_seq_len : ℕ
deriving Repr, DecidableEq

/-- `compute_inv_freq`: `1 / base^(2 i / dim)` for `i < dim/2` (the
f32 power is the backend's `powQ`). -/
def RotaryEmbedding.compute_inv_freq (ops : NumOps) (dim : ℕ) (base : ℚ) : List ℚ :=
  (List.range (dim / 2)).map (fun i => 1 / ops.powQ base (2 * (i : ℚ) / (dim : ℚ)))

/-- `RotaryEmbedding::new` + `compute_cache`: outer product of
positions and inverse frequencies, then elementwise cos/sin (f32 trig
is the backend's `cosQ`/`sinQ`). -/
def RotaryEmbedding.new (ops : NumOps) (dim max_seq_len : ℕ) (base : ℚ) : RotaryEmbedding :=
  let inv_freq := compute_inv_freq ops dim base
  let freqs := (List.range max_seq_len).map (fun p => inv_freq.map (fun f => (p : ℚ) * f))
  { cos_cache := ⟨[max_seq_len, dim / 2], (freqs.map (fun r => r.map ops.cosQ)).flatten⟩
    sin_cache := ⟨[max_seq_len, dim / 2], (freqs.map (fun r => r.map ops.sinQ)).flatten⟩
    dim := dim
    max_seq_len := max_seq_len }

/-- `apply_rotary`: split the last dim in halves, broadcast-multiply
with the (unsqueezed) cos/sin rows, rotate, concatenate. -/
def RotaryEmbedding.applyRotary (rope : RotaryEmbedding) (x cos sin : Tq) :
    Except String Tq := do
  let half := rope.dim / 2
  let lastIdx := x.dims.length - 1
  let x1 ← x.narrow lastIdx 0 half
  let x2 ← x.narrow lastIdx half half
  let cosU ← (← cos.unsqueeze 0).unsqueeze 2
  let sinU ← (← sin.unsqueeze 0).unsqueeze 2
  let r1 ← Tq.sameSub (← x1.broadcastMul cosU) (← x2.broadcastMul sinU)
  let r2 ← Tq.sameAdd (← x1.broadcastMul sinU) (← x2.broadcastMul cosU)
  Tq.catTwo lastIdx r1 r2

/-- `RotaryEmbedding::forward(q, k, offset)`: note that it reads the
sequence length from `q.dim(1)` (the doc comment in the source says
the expected layout is `[batch, seq, num_heads, head_dim]`). -/
def RotaryEmbedding.forward (rope : RotaryEmbedding) (q k : Tq) (offset : ℕ) :
    Except String (Tq × Tq) := do
  let seq_len ← q.dim 1
  if offset + seq_len > rope.max_seq_len then
    .error ("Sequence length " ++ toString (offset + seq_len) ++ " exceeds max " ++
      toString rope.max_seq_len)
  else do
    let cos ← rope.cos_cache.narrow 0 offset seq_len
    let sin ← rope.sin_cache.narrow 0 offset seq_len
    let qR ← rope.applyRotary q cos sin
    let kR ← rope.applyRotary k cos sin
    .ok (qR, kR)

/-! ## modules/attention.rs -/

structure KVCache where
  k_cache : Option Tq
  v_cache : Option Tq
deriving Repr, DecidableEq

def KVCache.new : KVCache := ⟨none, none⟩

/-- `KVCache::seq_len`: `k.dim(2).unwrap_or(0)`, 0 when empty. -/
def KVCache.seq_len (c : KVCache) : ℕ :=
  (c.k_cache.map (fun k => ((k.dim 2).toOption).getD 0)).getD 0

/-- `KVCache::update`: concatenate along dim 2 when a cache is
present, store, and return the accumulated tensors (the `&mut self`
update is embedded by returning the new cache). -/
def KVCache.update (c : KVCache) (k v : Tq) : Except String (Tq × Tq × KVCache) := do
  let pair ← match c.k_cache, c.v_cache with
    | some kc, some vc => do
      let kNew ← Tq.catTwo 2 kc k
      let vNew ← Tq.catTwo 2 vc v
      pure (kNew, vNew)
    | _, _ => pure (k, v)
  .ok (pair.1, pair.2, ⟨some pair.1, some pair.2⟩)

def KVCache.clear (_c : KVCache) : KVCache := ⟨none, none⟩

structure MultiHeadAttention where
  q_proj : Linear
  k_proj : Linear
  v_proj : Linear
  o_proj : Linear
  num_heads : ℕ
  head_dim : ℕ
  scale : ℚ
deriving Repr, DecidableEq

/-- `MultiHeadAttention::new` (`scale = 1/sqrt(head_dim)` uses the
backend's `sqrtQ`). -/
def MultiHeadAttention.new (ops : NumOps) (hidden_size num_heads : ℕ) (vb : VB) :
    MultiHeadAttention :=
  let head_dim := hidden_size / num_heads
  { q_proj := linearNew hidden_size hidden_size (vb.pp "q_proj")
    k_proj := linearNew hidden_size hidden_size (vb.pp "k_proj")
    v_proj := linearNew hidden_size hidden_size (vb.pp "v_proj")
    o_proj := linearNew hidden_size hidden_size (vb.pp "o_proj")
    num_heads := num_heads
    head_dim := head_dim
    scale := 1 / ops.sqrtQ (head_dim : ℚ) }

/-- `create_causal_mask`: allow key `j` when `j ≤ i + (kv_len - q_len)`
(`true` = additive mask 0, `false` = `-∞`). -/
def createCausalMask (q_len kv_len : ℕ) : List (List Bool) :=
  (List.range q_len).map (fun i =>
    (List.range kv_len).map (fun j => decide (j ≤ i + (kv_len - q_len))))

/-- `MultiHeadAttention::forward`.  The mask-add-plus-softmax pair is
embedded as `maskedSoftmaxLast` (header note); everything else is
step-for-step.  The `&mut KVCache` argument is embedded by returning
the updated cache. -/
def MultiHeadAttention.forward (mha : MultiHeadAttention) (ops : NumOps) (x : Tq)
    (rotary : Option RotaryEmbedding) (kv_cache : Option KVCache) (causal_mask : Bool) :
    Except String (Tq × Option KVCache) := do
  let (batch_size, seq_len, _) ← x.dims3
  let q ← mha.q_proj.forward x
  let k ← mha.k_proj.forward x
  let v ← mha.v_proj.forward x
  let q ← q.reshape [batch_size, seq_len, mha.num_heads, mha.head_dim]
  let k ← k.reshape [batch_size, seq_len, mha.num_heads, mha.head_dim]
  let v ← v.reshape [batch_size, seq_len, mha.num_heads, mha.head_dim]
  let q ← q.transpose 1 2
  let k ← k.transpose 1 2
  let v ← v.transpose 1 2
  let (q, k) ← match rotary with
    | some rope =>
      let offset := (kv_cache.map KVCache.seq_len).getD 0
      rope.forward q k offset
    | none => pure (q, k)
  let (k, v, cacheOut) ← match kv_cache with
    | some cache => do
      let (k2, v2, c2) ← cache.update k v
      pure (k2, v2, some c2)
    | none => pure (k, v, (none : Option KVCache))
  let kT ← k.transpose 2 3
  let attn ← q.matmul kT
  let attn := attn.scalarMul mha.scale
  let kvLen ← k.dim 2
  let attn :=
    if causal_mask then maskedSoftmaxLast ops attn (createCausalMask seq_len kvLen)
    else softmaxLast ops attn
  let attnOut ← attn.matmul v
  let attnOut ← attnOut.transpose 1 2
  let attnOut ← attnOut.reshape [batch_size, seq_len, mha.num_heads * mha.head_dim]
  let out ← mha.o_proj.forward attnOut
  .ok (out, cacheOut)

end PocketTTS

namespace PocketTTS

/-! ## modules/layer_norm.rs -/

structure RMSNorm where
  weight : Tq
  eps : ℚ
deriving Repr, DecidableEq

def RMSNorm.new (hidden_size : ℕ) (eps : ℚ) (vb : VB) : RMSNorm :=
  ⟨vbTensor vb "weight" [hidden_size], eps⟩

/-- `mean_keepdim(D::Minus1)`. -/
def meanKeepdimLast (t : Tq) : Tq :=
  let last := t.dims.getLast?.getD 0
  ⟨t.dims.dropLast ++ [1], (chunkList last t.data).map (fun r => r.sum / (last : ℚ))⟩

/-- `RMSNorm::forward`: `x / sqrt(mean(x²) + eps) * weight` (the
f32/f32 dtype round-trips are identities here). -/
def RMSNorm.forward (n : RMSNorm) (ops : NumOps) (x : Tq) : Except String Tq := do
  let variance := meanKeepdimLast (x.mapU (fun v => v * v))
  let xNormed ← x.broadcastDiv (variance.mapU (fun v => ops.sqrtQ (v + n.eps)))
  xNormed.broadcastMul n.weight

/-! ## modules/mlp.rs -/

/-- `candle_nn::ops::silu`: `x * sigmoid(x)`. -/
def siluT (ops : NumOps) (t : Tq) : Tq := t.mapU (fun v => v * ops.sigmoidQ v)

/-- `Tensor::gelu_erf` (elementwise backend primitive). -/
def geluT (ops : NumOps) (t : Tq) : Tq := t.mapU ops.geluQ

structure GatedMLP where
  gate_proj : Linear
  up_proj : Linear
  down_proj : Linear
deriving Repr, DecidableEq

def GatedMLP.new (hidden_size intermediate_size : ℕ) (vb : VB) : GatedMLP :=
  { gate_proj := linearNew hidden_size intermediate_size (vb.pp "gate_proj")
    up_proj := linearNew hidden_size intermediate_size (vb.pp "up_proj")
    down_proj := linearNew intermediate_size hidden_size (vb.pp "down_proj") }

/-- `GatedMLP::forward`: `down(silu(gate(x)) * up(x))`. -/
def GatedMLP.forward (m : GatedMLP) (ops : NumOps) (x : Tq) : Except String Tq := do
  let gate ← m.gate_proj.forward x
  let gate := siluT ops gate
  let up ← m.up_proj.forward x
  let hidden ← Tq.sameMul gate up
  m.down_proj.forward hidden

/-- First index of the row maximum (`Tensor::argmax` semantics). -/
def argmaxIdx (row : List ℚ) : ℕ :=
  (row.enum.foldl (fun best p => if p.2 > best.2 then p else best) (0, row.headD 0)).1

/-- `Tensor::argmax(D::Minus1)`: removes the last dimension; the
following `to_dtype` is an identity over `ℚ`. -/
def argmaxLast (t : Tq) : Except String Tq :=
  if t.dims.length = 0 then .error "argmax: scalar input"
  else
    let last := t.dims.getLast?.getD 0
    .ok ⟨t.dims.dropLast, (chunkList last t.data).map (fun r => (argmaxIdx r : ℚ))⟩

structure MLPSampler where
  layers : List Linear
  num_steps : ℕ
deriving Repr, DecidableEq

/-- `MLPSampler::new`: a chain of linears
(`input → hidden → … → output`), and `num_steps: 2`. -/
def MLPSampler.new (input_dim hidden_dim output_dim num_layers : ℕ) (vb : VB) :
    MLPSampler :=
  { layers := (List.range num_layers).map (fun i =>
      let inD := if i = 0 then input_dim else hidden_dim
      let outD := if i = num_layers - 1 then output_dim else hidden_dim
      linearNew inD outD (vb.pp ("layer_" ++ toString i)))
    num_steps := 2 }

/-- `MLPSampler::set_num_steps`: `steps.clamp(1, 4)`. -/
def MLPSampler.set_num_steps (s : MLPSampler) (steps : ℕ) : MLPSampler :=
  { s with num_steps := min (max steps 1) 4 }

/-- `MLPSampler::forward`: each layer, with `gelu_erf` between layers
(not after the last). -/
def MLPSampler.forward (s : MLPSampler) (ops : NumOps) (x : Tq) : Except String Tq :=
  s.layers.enum.foldlM (fun hidden p => do
    let h ← p.2.forward hidden
    pure (if p.1 < s.layers.length - 1 then geluT ops h else h)) x

/-- `MLPSampler::top_p_sample`: softmax then argmax (the `top_p`
argument is unused by the source body too). -/
def MLPSampler.top_p_sample (s : MLPSampler) (ops : NumOps) (logits : Tq)
    (_top_p : ℚ) : Except String Tq := do
  let probs := softmaxLast ops logits
  argmaxLast probs

/-- `MLPSampler::sample`: `num_steps` rounds of
forward → temperature scale → `top_p_sample`, each feeding the next. -/
def MLPSampler.sample (s : MLPSampler) (ops : NumOps) (x : Tq)
    (temperature top_p : ℚ) : Except String Tq :=
  (List.range s.num_steps).foldlM (fun current _ => do
    let logits ← s.forward ops current
    let scaled := if temperature ≠ 1 then logits.scalarDiv temperature else logits
    s.top_p_sample ops scaled top_p) x

/-! ## modules/embeddings.rs -/

structure TextEmbedding where
  embedding : Tq
  hidden_size : ℕ
deriving Repr, DecidableEq

def TextEmbedding.new (vocab_size hidden_size : ℕ) (vb : VB) : TextEmbedding :=
  ⟨vbTensor vb "weight" [vocab_size, hidden_size], hidden_size⟩

/-- `TextEmbedding::forward` on a `(1, len)` id tensor (the ids are
passed as the list they were built from): candle's `index_select`
errors on out-of-range ids. -/
def TextEmbedding.forward (e : TextEmbedding) (token_ids : List ℕ) : Except String Tq :=
  match e.embedding.dims with
  | [vocab, hidden] =>
    if token_ids.all (· < vocab) then
      .ok ⟨[1, token_ids.length, hidden],
        (token_ids.map (fun id => (e.embedding.data.drop (id * hidden)).take hidden)).flatten⟩
    else .error "index-select: index out of bounds"
  | _ => .error "embedding: bad table shape"

structure VoiceEmbedding where
  embedding : Tq
  voice_dim : ℕ
deriving Repr, DecidableEq

/-- `VoiceEmbedding::expand_to_seq`: unsqueeze a batch dim (and
`repeat` along it when `batch_size > 1`); `seq_len` is ignored by the
source as well. -/
def VoiceEmbedding.expand_to_seq (v : VoiceEmbedding) (batch_size : ℕ) (_seq_len : ℕ) :
    Except String Tq := do
  let expanded ← v.embedding.unsqueeze 0
  if batch_size > 1 then
    .ok ⟨batch_size :: expanded.dims.drop 1, (List.replicate batch_size expanded.data).flatten⟩
  else .ok expanded

structure VoiceBank where
  voices : List VoiceEmbedding
  voice_dim : ℕ
deriving Repr, DecidableEq

/-- `VoiceBank::get`. -/
def VoiceBank.get (b : VoiceBank) (index : ℕ) : Option VoiceEmbedding :=
  b.voices.get? index

/-! ## modules/conv.rs -/

/-- `candle_nn::Conv1d` with its config (weight `[cout, cin, k]`). -/
structure Conv1dM where
  weight : Tq
  bias : Tq
  padding : ℕ
  stride : ℕ
  dilation : ℕ
deriving Repr, DecidableEq

/-- candle `Conv1d::forward` on `[batch, cin, l]`:
`out[b][co][t] = bias[co] + Σ_ci Σ_j w[co][ci][j] · xpad[b][ci][t·s + j·d]`
with zero padding of `padding` on both sides and
`l_out = (l + 2p - d(k-1) - 1)/s + 1`. -/
def conv1dForward (c : Conv1dM) (x : Tq) : Except String Tq :=
  match c.weight.dims, x.dims with
  | [cout, cin, k], [b, cinX, l] =>
    if cinX = cin ∧ c.dilation * (k - 1) + 1 ≤ l + 2 * c.padding then
      let lout := (l + 2 * c.padding - c.dilation * (k - 1) - 1) / c.stride + 1
      .ok (Tq.ofFn [b, cout, lout] (fun cd =>
        let bi := cd.getD 0 0
        let co := cd.getD 1 0
        let t := cd.getD 2 0
        c.bias.data.getD co 0 +
        ((List.range cin).map (fun ci =>
          ((List.range k).map (fun j =>
            let p := t * c.stride + j * c.dilation
            if c.padding ≤ p ∧ p < l + c.padding then
              c.weight.at' [co, ci, j] * x.at' [bi, ci, p - c.padding]
            else 0)).sum)).sum))
    else .error "conv1d: shape mismatch"
  | _, _ => .error "conv1d: bad shapes"

/-- `candle_nn::ConvTranspose1d` with its config
(weight `[cin, cout, k]`). -/
structure ConvTranspose1dM where
  weight : Tq
  bias : Tq
  padding : ℕ
  stride : ℕ
  dilation : ℕ
  output_padding : ℕ
deriving Repr, DecidableEq

/-- candle `ConvTranspose1d::forward` on `[batch, cin, l]`:
`l_out = (l-1)·s + d(k-1) + output_padding + 1 - 2p`, and
`out[b][co][t] = bias[co] + Σ_ci Σ_i Σ_j [i·s + j·d = t + p] w[ci][co][j] · x[b][ci][i]`. -/
def convTranspose1dForward (c : ConvTranspose1dM) (x : Tq) : Except String Tq :=
  match c.weight.dims, x.dims with
  | [cin, cout, k], [b, cinX, l] =>
    if cinX = cin ∧ 1 ≤ l ∧
        2 * c.padding ≤ (l - 1) * c.stride + c.dilation * (k - 1) + c.output_padding + 1 then
      let lout := (l - 1) * c.stride + c.dilation * (k - 1) + c.output_padding + 1 - 2 * c.padding
      .ok (Tq.ofFn [b, cout, lout] (fun cd =>
        let bi := cd.getD 0 0
        let co := cd.getD 1 0
        let t := cd.getD 2 0
        c.bias.data.getD co 0 +
        ((List.range cin).map (fun ci =>
          ((List.range l).map (fun i =>
            ((List.range k).map (fun j =>
              if i * c.stride + j * c.dilation = t + c.padding then
                c.weight.at' [ci, co, j] * x.at' [bi, ci, i]
              else 0)).sum)).sum)).sum))
    else .error "conv-transpose1d: shape mismatch"
  | _, _ => .error "conv-transpose1d: bad shapes"

/-- `conv::Conv1d` wrapper. -/
structure Conv1d where
  conv : Conv1dM
  kernel_size : ℕ
  padding : ℕ
deriving Repr, DecidableEq

def Conv1d.new (in_channels out_channels kernel_size stride padding : ℕ) (vb : VB) :
    Conv1d :=
  { conv :=
      { weight := vbTensor vb "weight" [out_channels, in_channels, kernel_size]
        bias := vbTensor vb "bias" [out_channels]
        padding := padding
        stride := stride
        dilation := 1 }
    kernel_size := kernel_size
    padding := padding }

def Conv1d.forward (c : Conv1d) (x : Tq) : Except String Tq := conv1dForward c.conv x

/-- `conv::CausalConv1d`: pad `(k-1)·dilation` (both sides at the
candle level), then trim the tail back to the input length. -/
structure CausalConv1d where
  conv : Conv1dM
  kernel_size : ℕ
deriving Repr, DecidableEq

def CausalConv1d.new (in_channels out_channels kernel_size stride dilation : ℕ)
    (vb : VB) : CausalConv1d :=
  let causal_padding := (kernel_size - 1) * dilation
  { conv :=
      { weight := vbTensor vb "weight" [out_channels, in_channels, kernel_size]
        bias := vbTensor vb "bias" [out_channels]
        padding := causal_padding
        stride := stride
        dilation := dilation }
    kernel_size := kernel_size }

/-- `CausalConv1d::forward`: convolve, then `narrow(2, 0, seq_len)`. -/
def CausalConv1d.forward (c : CausalConv1d) (x : Tq) : Except String Tq := do
  let y ← conv1dForward c.conv x
  let seq_len ← x.dim 2
  y.narrow 2 0 seq_len

/-- `conv::ConvTranspose1d` wrapper. -/
structure ConvTranspose1d where
  conv : ConvTranspose1dM
  kernel_size : ℕ
  stride : ℕ
deriving Repr, DecidableEq

def ConvTranspose1d.new (in_channels out_channels kernel_size stride padding : ℕ)
    (vb : VB) : ConvTranspose1d :=
  { conv :=
      { weight := vbTensor vb "weight" [in_channels, out_channels, kernel_size]
        bias := vbTensor vb "bias" [out_channels]
        padding := padding
        stride := stride
        dilation := 1
        output_padding := 0 }
    kernel_size := kernel_size
    stride := stride }

def ConvTranspose1d.forward (c : ConvTranspose1d) (x : Tq) : Except String Tq :=
  convTranspose1dForward c.conv x

/-- `conv::SEANetDecoderBlock`: upsample (kernel `2s`, stride `s`,
padding `s/2`), then two causal convolutions with `gelu_erf`. -/
structure SEANetDecoderBlock where
  upsample : ConvTranspose1d
  conv1 : CausalConv1d
  conv2 : CausalConv1d
deriving Repr, DecidableEq

def SEANetDecoderBlock.new (in_channels out_channels kernel_size stride : ℕ)
    (vb : VB) : SEANetDecoderBlock :=
  { upsample := ConvTranspose1d.new in_channels out_channels (stride * 2) stride
      (stride / 2) (vb.pp "upsample")
    conv1 := CausalConv1d.new out_channels out_channels kernel_size 1 1 (vb.pp "conv1")
    conv2 := CausalConv1d.new out_channels out_channels kernel_size 1 1 (vb.pp "conv2") }

def SEANetDecoderBlock.forward (blk : SEANetDecoderBlock) (ops : NumOps) (x : Tq) :
    Except String Tq := do
  let h ← blk.upsample.forward x
  let h ← blk.conv1.forward h
  let h := geluT ops h
  let h ← blk.conv2.forward h
  pure (geluT ops h)

end PocketTTS

namespace PocketTTS

/-! ## models/seanet.rs -/

structure SEANetConfig where
  latent_dim : ℕ
  channels : List ℕ
  kernel_sizes : List ℕ
  strides : List ℕ
  sample_rate : ℕ
deriving Repr, DecidableEq

/-- `SEANetConfig::default`: channels `[512,256,128,64,32]`, kernels
`[7,7,7,7,7]`, strides `[8,5,4,2,2]`. -/
def SEANetConfig.default : SEANetConfig :=
  { latent_dim := 512
    channels := [512, 256, 128, 64, 32]
    kernel_sizes := [7, 7, 7, 7, 7]
    strides := [8, 5, 4, 2, 2]
    sample_rate := 24000 }

structure SEANetDecoder where
  config : SEANetConfig
  input_conv : CausalConv1d
  blocks : List SEANetDecoderBlock
  output_conv : CausalConv1d
deriving Repr, DecidableEq

/-- `SEANetDecoder::new`: input causal conv (kernel 7), then
`channels.len() - 1` upsampling blocks using `channels[i] →
channels[i+1]`, `kernel_sizes[i]`, `strides[i]`, then an output causal
conv to one channel (Rust's panicking index is `getD` here; the
configs used never go out of range). -/
def SEANetDecoder.new (config : SEANetConfig) (vb : VB) : SEANetDecoder :=
  { config := config
    input_conv := CausalConv1d.new config.latent_dim (config.channels.getD 0 0) 7 1 1
      (vb.pp "input_conv")
    blocks := (List.range (config.channels.length - 1)).map (fun i =>
      SEANetDecoderBlock.new (config.channels.getD i 0) (config.channels.getD (i + 1) 0)
        (config.kernel_sizes.getD i 0) (config.strides.getD i 0)
        (vb.pp ("blocks." ++ toString i)))
    output_conv := CausalConv1d.new (config.channels.getLast?.getD 32) 1 7 1 1
      (vb.pp "output_conv") }

/-- `SEANetDecoder::forward`: transpose to channel-major, input conv +
`gelu_erf`, the block cascade, output conv, `tanh`, squeeze the
channel dim. -/
def SEANetDecoder.forward (dec : SEANetDecoder) (ops : NumOps) (latents : Tq) :
    Except String Tq := do
  let x ← latents.transpose 1 2
  let x ← dec.input_conv.forward x
  let x := geluT ops x
  let x ← dec.blocks.foldlM (fun h blk => blk.forward ops h) x
  let x ← dec.output_conv.forward x
  let x := x.mapU ops.tanhQ
  x.squeeze 1

/-- Embeds `SEANetDecoder::upsampling_ratio`: the product of all
configured strides. -/
def SEANetDecoder.upsamplingFactor (dec : SEANetDecoder) : ℕ :=
  dec.config.strides.prod

/-! ## models/mimi.rs -/

structure MimiConfig where
  latent_dim : ℕ
  mimi_dim : ℕ
  sample_rate : ℕ
  frame_rate : ℚ
  seanet_config : SEANetConfig
deriving Repr, DecidableEq

def MimiConfig.default : MimiConfig :=
  { latent_dim := 32
    mimi_dim := 512
    sample_rate := 24000
    frame_rate := 12.5
    seanet_config := SEANetConfig.default }

structure MimiDecoder where
  config : MimiConfig
  latent_proj : Linear
  seanet : SEANetDecoder
deriving Repr, DecidableEq

/-- `MimiDecoder::new`: a latent projection to `mimi_dim` and a
SEANet decoder whose `latent_dim` is overridden to `mimi_dim`. -/
def MimiDecoder.new (config : MimiConfig) (vb : VB) : MimiDecoder :=
  { config := config
    latent_proj := linearNew config.latent_dim config.mimi_dim (vb.pp "latent_proj")
    seanet := SEANetDecoder.new
      { config.seanet_config with latent_dim := config.mimi_dim } (vb.pp "decoder") }

/-- `MimiDecoder::forward`: project, then SEANet. -/
def MimiDecoder.forward (m : MimiDecoder) (ops : NumOps) (latents : Tq) :
    Except String Tq := do
  let projected ← m.latent_proj.forward latents
  m.seanet.forward ops projected

def MimiDecoder.sample_rate (m : MimiDecoder) : ℕ := m.config.sample_rate

/-- `MimiDecoder::decode_streaming`: decode, then crossfade against
the previous tail with linear ramps `1 - i/L` (down) and `i/L` (up)
over `fade_len = min(overlap, prev_len, total)`, splice the rest, and
save the last `overlap` samples of the un-blended chunk as the next
tail.  (The `total_samples - overlap_samples` in the `fade_len = 0`
branch is Rust's plain `-`, matched by `ℕ` subtraction.) -/
def MimiDecoder.decode_streaming (m : MimiDecoder) (ops : NumOps) (latents : Tq)
    (overlap_samples : ℕ) (previous_tail : Option Tq) :
    Except String (Tq × Tq) := do
  let audio ← m.forward ops latents
  let total_samples ← audio.dim 1
  match previous_tail with
  | some prev => do
    let prev_len ← prev.dim 0
    let fade_len := min (min overlap_samples prev_len) total_samples
    if 0 < fade_len then do
      let fade_out : Tq :=
        ⟨[fade_len], (List.range fade_len).map (fun (i : ℕ) => 1 - (i : ℚ) / (fade_len : ℚ))⟩
      let fade_in : Tq :=
        ⟨[fade_len], (List.range fade_len).map (fun (i : ℕ) => (i : ℚ) / (fade_len : ℚ))⟩
      let prev_overlap ← prev.narrow 0 (prev_len - fade_len) fade_len
      let curr_overlap ← (← audio.narrow 1 0 fade_len).squeeze 0
      let blended ← Tq.sameAdd (← prev_overlap.broadcastMul fade_out)
        (← curr_overlap.broadcastMul fade_in)
      let rest ← audio.narrow 1 fade_len (total_samples - fade_len)
      let output ← Tq.catTwo 1 (← blended.unsqueeze 0) rest
      let tail_start := total_samples - overlap_samples
      let tail ← (← audio.narrow 1 tail_start (total_samples - tail_start)).squeeze 0
      .ok (output, tail)
    else do
      let tail ← (← audio.narrow 1 (total_samples - overlap_samples) overlap_samples).squeeze 0
      .ok (audio, tail)
  | none => do
    let tail_start := total_samples - overlap_samples
    let tail ← (← audio.narrow 1 tail_start (total_samples - tail_start)).squeeze 0
    .ok (audio, tail)

/-! ## models/flowlm.rs -/

structure FlowLMConfig where
  vocab_size : ℕ
  hidden_size : ℕ
  intermediate_size : ℕ
  num_layers : ℕ
  num_heads : ℕ
  max_seq_len : ℕ
  rope_base : ℚ
  rms_norm_eps : ℚ
  latent_dim : ℕ
deriving Repr, DecidableEq

def FlowLMConfig.default : FlowLMConfig :=
  { vocab_size := 32000
    hidden_size := 1024
    intermediate_size := 4096
    num_layers := 6
    num_heads := 16
    max_seq_len := 2048
    rope_base := 10000
    rms_norm_eps := 1/1000000
    latent_dim := 32 }

structure TransformerLayer where
  attn : MultiHeadAttention
  mlp : GatedMLP
  input_norm : RMSNorm
  post_attn_norm : RMSNorm
deriving Repr, DecidableEq

def TransformerLayer.new (ops : NumOps) (config : FlowLMConfig) (vb : VB) :
    TransformerLayer :=
  { attn := MultiHeadAttention.new ops config.hidden_size config.num_heads
      (vb.pp "self_attn")
    mlp := GatedMLP.new config.hidden_size config.intermediate_size (vb.pp "mlp")
    input_norm := RMSNorm.new config.hidden_size config.rms_norm_eps
      (vb.pp "input_layernorm")
    post_attn_norm := RMSNorm.new config.hidden_size config.rms_norm_eps
      (vb.pp "post_attention_layernorm") }

/-- `TransformerLayer::forward`: pre-norm attention with residual,
pre-norm gated MLP with residual. -/
def TransformerLayer.forward (layer : TransformerLayer) (ops : NumOps) (x : Tq)
    (rotary : RotaryEmbedding) (kv_cache : Option KVCache) :
    Except String (Tq × Option KVCache) := do
  let residual := x
  let x1 ← layer.input_norm.forward ops x
  let (x2, cacheOut) ← layer.attn.forward ops x1 (some rotary) kv_cache true
  let x3 ← Tq.sameAdd residual x2
  let residual2 := x3
  let x4 ← layer.post_attn_norm.forward ops x3
  let x5 ← layer.mlp.forward ops x4
  let out ← Tq.sameAdd residual2 x5
  .ok (out, cacheOut)

structure FlowLM where
  config : FlowLMConfig
  text_embedding : TextEmbedding
  layers : List TransformerLayer
  final_norm : RMSNorm
  latent_proj : Linear
  rotary : RotaryEmbedding
  kv_caches : List KVCache
deriving Repr, DecidableEq

/-- `FlowLM::new`. -/
def FlowLM.new (ops : NumOps) (config : FlowLMConfig) (vb : VB) : FlowLM :=
  { config := config
    text_embedding := TextEmbedding.new config.vocab_size config.hidden_size
      (vb.pp "embed_tokens")
    layers := (List.range config.num_layers).map (fun i =>
      TransformerLayer.new ops config (vb.pp ("layers." ++ toString i)))
    final_norm := RMSNorm.new config.hidden_size config.rms_norm_eps (vb.pp "norm")
    latent_proj := linearNew config.hidden_size config.latent_dim (vb.pp "latent_proj")
    rotary := RotaryEmbedding.new ops (config.hidden_size / config.num_heads)
      config.max_seq_len config.rope_base
    kv_caches := (List.range config.num_layers).map (fun _ => KVCache.new) }

/-- The `for (i, layer) in self.layers.iter().enumerate()` loop of
`FlowLM::forward`, carrying each layer's cache (paired up front, as
`kv_caches[i]` pairs with `layers[i]`). -/
def runLayers (ops : NumOps) (rotary : RotaryEmbedding) (use_cache : Bool) :
    List (TransformerLayer × KVCache) → Tq → Except String (Tq × List KVCache)
  | [], h => .ok (h, [])
  | (layer, cache) :: rest, h => do
    let (h2, cacheOut) ← layer.forward ops h rotary (if use_cache then some cache else none)
    let newCache := match cacheOut with
      | some c => c
      | none => cache
    let (hF, caches) ← runLayers ops rotary use_cache rest h2
    .ok (hF, newCache :: caches)

/-- `FlowLM::forward`: text embedding, optional voice conditioning,
the layer stack (with per-layer caches when `use_cache`), final norm,
latent projection.  Rust's `self.kv_caches[i]` panics when a cache is
missing; that panic is an `Except.error` here.  The `&mut self` cache
mutation is embedded by returning the updated model. -/
def FlowLM.forward (m : FlowLM) (ops : NumOps) (token_ids : List ℕ)
    (voice_embedding : Option VoiceEmbedding) (use_cache : Bool) :
    Except String (Tq × FlowLM) := do
  if use_cache ∧ m.kv_caches.length < m.layers.length then
    .error "panic: kv_caches index out of bounds"
  else do
    let hidden ← m.text_embedding.forward token_ids
    let hidden ← match voice_embedding with
      | some voice => do
        let (batch_size, seq_len, _) ← hidden.dims3
        let voiceExp ← voice.expand_to_seq batch_size seq_len
        Tq.sameAdd hidden voiceExp
      | none => pure hidden
    let (hidden, cachesOut) ← runLayers ops m.rotary use_cache
      (m.layers.zip m.kv_caches) hidden
    let hidden ← m.final_norm.forward ops hidden
    let latents ← m.latent_proj.forward hidden
    .ok (latents, { m with kv_caches := cachesOut ++ m.kv_caches.drop cachesOut.length })

/-- `FlowLM::reset_cache`: clear every per-layer cache. -/
def FlowLM.reset_cache (m : FlowLM) : FlowLM :=
  { m with kv_caches := m.kv_caches.map (fun c => c.clear) }

/-- `FlowLM::cache_seq_len`: the first layer's cache length. -/
def FlowLM.cache_seq_len (m : FlowLM) : ℕ :=
  (m.kv_caches.head?.map KVCache.seq_len).getD 0

end PocketTTS

namespace PocketTTS

/-! ## error.rs (the variants exercised by the embedded paths) -/

inductive PocketTTSError
  | ModelLoadFailed (msg : String)
  | TokenizationFailed (msg : String)
  | InferenceFailed (msg : String)
  | InvalidConfig (msg : String)
  | InvalidVoiceIndex (index : ℕ)
  | ModelNotLoaded
  | AudioEncodingFailed (msg : String)
  | IoError (msg : String)
deriving Repr, DecidableEq

/-! ## models/pocket_tts.rs

`PocketTTSModel::load` is file I/O plus component construction; the
embedded model is the structure of constructed components (the claims
quantify over loaded models through it). -/

structure PocketTTSModel where
  flowlm : FlowLM
  sampler : MLPSampler
  mimi : MimiDecoder
  tokenizer : PocketTokenizer
  voice_bank : VoiceBank
  config : TTSConfig
  custom_voice : Option VoiceEmbedding
deriving Repr, DecidableEq

/-- `PocketTTSModel::configure`: validate, then store the
configuration (nothing else is touched). -/
def PocketTTSModel.configure (m : PocketTTSModel) (config : TTSConfig) :
    Except PocketTTSError PocketTTSModel :=
  match config.validate with
  | .error e => .error (.InvalidConfig e)
  | .ok _ => .ok { m with config := config }

/-- The voice selection in `synthesize`/`synthesize_streaming`:
custom voice if set, else `voice_bank.get(config.voice_index)`. -/
def PocketTTSModel.getVoice (m : PocketTTSModel) : Option VoiceEmbedding :=
  match m.custom_voice with
  | some custom => some custom
  | none => m.voice_bank.get m.config.voice_index

/-- `PocketTTSModel::synthesize`: tokenize, reset caches, FlowLM (no
cache), consistency sampling, Mimi decode, squeeze + `to_vec1`. -/
def PocketTTSModel.synthesize (m : PocketTTSModel) (ops : NumOps) (text : String) :
    Except PocketTTSError (List ℚ × PocketTTSModel) := do
  let token_ids := m.tokenizer.encode text
  let voice := m.getVoice
  let m := { m with flowlm := m.flowlm.reset_cache }
  let (latents, fl2) ← (m.flowlm.forward ops token_ids voice false).mapError
    (fun e => .InferenceFailed ("FlowLM: " ++ e))
  let m := { m with flowlm := fl2 }
  let sampled ← (m.sampler.sample ops latents m.config.temperature m.config.top_p).mapError
    (fun e => .InferenceFailed ("Sampler: " ++ e))
  let audio ← (m.mimi.forward ops sampled).mapError
    (fun e => .InferenceFailed ("Mimi: " ++ e))
  let audioS ← (audio.squeeze 0).mapError (fun e => .InferenceFailed e)
  if audioS.dims.length = 1 then .ok (audioS.data, m)
  else .error (.InferenceFailed "to_vec1: not a rank-1 tensor")

/-- The body of `synthesize_streaming`'s
`for (i, chunk) in token_ids.chunks(chunk_size).enumerate()` loop.
The callback's side effects are captured as the returned invocation
log (chunk samples, `is_final` flag); the triple is
(result, log, final model state). -/
def streamChunks (ops : NumOps) (cb : List ℚ → Bool → Bool)
    (voice : Option VoiceEmbedding) (totalLen chunk_size overlap_samples : ℕ) :
    List (ℕ × List ℕ) → PocketTTSModel → Option Tq → List (List ℚ × Bool) →
    Except PocketTTSError Unit × List (List ℚ × Bool) × PocketTTSModel
  | [], m, _prev, log => (.ok (), log, m)
  | (i, chunk) :: rest, m, prev, log =>
    let is_last := i == totalLen / chunk_size
    match (m.flowlm.forward ops chunk voice true).mapError
        (fun e => PocketTTSError.InferenceFailed ("FlowLM: " ++ e)) with
    | .error e => (.error e, log, m)
    | .ok (latents, fl2) =>
      let m := { m with flowlm := fl2 }
      match (m.sampler.sample ops latents m.config.temperature m.config.top_p).mapError
          (fun e => PocketTTSError.InferenceFailed ("Sampler: " ++ e)) with
      | .error e => (.error e, log, m)
      | .ok sampled =>
        match (m.mimi.decode_streaming ops sampled overlap_samples prev).mapError
            (fun e => PocketTTSError.InferenceFailed ("Mimi: " ++ e)) with
        | .error e => (.error e, log, m)
        | .ok (audio, tail) =>
          match (audio.squeeze 0).mapError
              (fun e => PocketTTSError.InferenceFailed e) with
          | .error e => (.error e, log, m)
          | .ok audioS =>
            if audioS.dims.length = 1 then
              let audio_vec := audioS.data
              let log2 := log ++ [(audio_vec, is_last)]
              if cb audio_vec is_last then
                streamChunks ops cb voice totalLen chunk_size overlap_samples rest m
                  (some tail) log2
              else (.ok (), log2, m)
            else (.error (.InferenceFailed "to_vec1: not a rank-1 tensor"), log, m)

/-- `PocketTTSModel::synthesize_streaming`: tokenize, pick the voice,
reset caches, then the chunk loop with `chunk_size = 32` and
`overlap_samples = (sample_rate * 0.05) as usize`. -/
def PocketTTSModel.synthesize_streaming (m : PocketTTSModel) (ops : NumOps)
    (text : String) (cb : List ℚ → Bool → Bool) :
    Except PocketTTSError Unit × List (List ℚ × Bool) × PocketTTSModel :=
  let token_ids := m.tokenizer.encode text
  let voice := m.getVoice
  let m := { m with flowlm := m.flowlm.reset_cache }
  let chunk_size := 32
  let overlap_samples := (Rat.floor ((m.mimi.sample_rate : ℚ) * 0.05)).toNat
  streamChunks ops cb voice token_ids.length chunk_size overlap_samples
    (chunkNat chunk_size token_ids).enum m none []

end PocketTTS

namespace PocketTTS

/-! ## Specification-side formulas and scenario harnesses

These definitions follow the specification's words (not the source)
and exist to be compared against the embedded code. -/

/-- Spec: all configuration fields inside their declared ranges. -/
def TTSConfig.inRange (c : TTSConfig) : Prop :=
  c.voice_index ≤ 7 ∧
  0 ≤ c.temperature ∧ c.temperature ≤ 1 ∧
  1/10 ≤ c.top_p ∧ c.top_p ≤ 1 ∧
  1/2 ≤ c.speed ∧ c.speed ≤ 2 ∧
  1 ≤ c.consistency_steps ∧ c.consistency_steps ≤ 4

instance (c : TTSConfig) : Decidable c.inRange := by
  unfold TTSConfig.inRange
  infer_instance

/-- Spec crossfade formula: previous tail's trailing `L` samples
scaled by the down-ramp `1 - i/L`, plus the chunk's leading `L`
samples scaled by the up-ramp `i/L`, spliced with the untouched
remainder of the chunk. -/
def crossfadeSpec (prev cur : List ℚ) (L : ℕ) : List ℚ :=
  ((List.range L).map (fun i =>
    prev.getD (prev.length - L + i) 0 * (1 - (i : ℚ) / (L : ℚ)) +
    cur.getD i 0 * ((i : ℚ) / (L : ℚ)))) ++ cur.drop L

/-- Scenario harness: N chunked forward passes with caching enabled
(the spec's "after N chunked forward passes"). -/
def forwardChunks (ops : NumOps) (voice : Option VoiceEmbedding) :
    List (List ℕ) → FlowLM → Except String FlowLM
  | [], m => .ok m
  | c :: rest, m => do
    let (_, m2) ← m.forward ops c voice true
    forwardChunks ops voice rest m2

/-- Replace the per-layer caches (used to state that a new synthesis
session is insensitive to leftover cache state). -/
def FlowLM.withCaches (m : FlowLM) (cs : List KVCache) : FlowLM :=
  { m with kv_caches := cs }

def PocketTTSModel.withCaches (m : PocketTTSModel) (cs : List KVCache) : PocketTTSModel :=
  { m with flowlm := m.flowlm.withCaches cs }

/-! ## Concrete instances for closed evaluations -/

/-- A weight source of all zeroes. -/
def vbZero : VB := fun _ _ => []

/-- A weight source giving 2×2 identity matrices (zero biases). -/
def vbEye2 : VB := fun _ dims => if dims = [2, 2] then [1, 0, 0, 1] else []

/-- Backend instance whose cos/sin agree with the true values at the
arguments evaluated below (`cos 0 = 1`, `sin 0 = 0`,
`cos 1 ≈ 0.5403`, `sin 1 ≈ 0.8414`). -/
def opsC1 : NumOps :=
  { simpleOps with
    cosQ := fun q => if q = 0 then 1 else 0.5403
    sinQ := fun q => if q = 0 then 0 else 0.8414 }

/-- One attention head, hidden size 2, identity projections. -/
def mhaC1 : MultiHeadAttention := MultiHeadAttention.new simpleOps 2 1 vbEye2

/-- Rotary tables for `head_dim = 2`, two positions, built by the
embedded `RotaryEmbedding::new`. -/
def ropeC1 : RotaryEmbedding := RotaryEmbedding.new opsC1 2 2 10000

def xFullC1 : Tq := ⟨[1, 2, 2], [1, 0, 2, 0]⟩
def xAC1 : Tq := ⟨[1, 1, 2], [1, 0]⟩
def xBC1 : Tq := ⟨[1, 1, 2], [2, 0]⟩

/-- One-shot attention over both positions (no cache, as
`synthesize` runs it), keeping the output at position 1. -/
def oneShotC1 : Except String (List ℚ) := do
  let (yFull, _) ← mhaC1.forward simpleOps xFullC1 (some ropeC1) none true
  pure (yFull.data.drop 2)

/-- The same two tokens in two chunks with KV-cache reuse, keeping
the second chunk's output (the same sequence position 1). -/
def chunkedC1 : Except String (List ℚ) := do
  let (_, c1) ← mhaC1.forward simpleOps xAC1 (some ropeC1) (some KVCache.new) true
  let (yB, _) ← mhaC1.forward simpleOps xBC1 (some ropeC1) c1 true
  pure yB.data

/-- A tiny FlowLM configuration (1 layer, hidden 2, 1 head). -/
def cfgTinyLM : FlowLMConfig :=
  { vocab_size := 2, hidden_size := 2, intermediate_size := 2, num_layers := 1,
    num_heads := 1, max_seq_len := 4, rope_base := 10000,
    rms_norm_eps := 1/1000000, latent_dim := 2 }

def lmTiny : FlowLM := FlowLM.new simpleOps cfgTinyLM vbZero

/-- A SEANet configuration with the default stride schedule
`[8,5,4,2,2]` and 5 channel entries, shrunk to 1 channel and kernel 1
so that closed runs evaluate quickly. -/
def cfgTinySEA : SEANetConfig :=
  { latent_dim := 1, channels := [1, 1, 1, 1, 1], kernel_sizes := [1, 1, 1, 1, 1],
    strides := [8, 5, 4, 2, 2], sample_rate := 24000 }

def decTiny : SEANetDecoder := SEANetDecoder.new cfgTinySEA vbZero

def cfgTinyMimi : MimiConfig :=
  { latent_dim := 2, mimi_dim := 1, sample_rate := 20, frame_rate := 1,
    seanet_config := { latent_dim := 1, channels := [1, 1], kernel_sizes := [1],
                       strides := [2], sample_rate := 20 } }

def mimiTiny : MimiDecoder := MimiDecoder.new cfgTinyMimi vbZero

/-- A SEANet decoder with the default stride schedule but 1-channel
layers and kernel size 1, small enough for closed evaluation. -/
def cfgC5 : SEANetConfig :=
  { latent_dim := 1, channels := [1, 1, 1, 1, 1], kernel_sizes := [1, 1, 1, 1, 1],
    strides := [8, 5, 4, 2, 2], sample_rate := 24000 }

def decC5 : SEANetDecoder := SEANetDecoder.new cfgC5 vbZero

/-- The (all-zero) waveform the tiny Mimi decoder produces for the
2-frame latent input used in the streaming-crossfade run. -/
def audioC4 : Tq :=
  (mimiTiny.forward simpleOps ⟨[1, 2, 2], [1, 2, 3, 4]⟩).toOption.getD ⟨[], []⟩

/-- A vocabulary with one character token. -/
def tkA : PocketTokenizer := PocketTokenizer.fromVocab [("a", 0)]

/-- A vocabulary whose single token has an id beyond the vocabulary
size (perfectly loadable JSON: `{"a": 5}`). -/
def tkBad : PocketTokenizer := PocketTokenizer.fromVocab [("a", 5)]

def samplerTiny : MLPSampler := MLPSampler.new 2 2 2 1 vbZero

/-- A complete tiny model over the above components. -/
def modelTiny : PocketTTSModel :=
  { flowlm := lmTiny, sampler := samplerTiny, mimi := mimiTiny, tokenizer := tkA,
    voice_bank := ⟨[], 512⟩, config := TTSConfig.default, custom_voice := none }

/-- A callback that always asks to continue. -/
def cbTrue : List ℚ → Bool → Bool := fun _ _ => true

/-- A non-empty leftover cache state. -/
def dirtyCache : KVCache :=
  ⟨some ⟨[1, 1, 3, 2], [1, 2, 3, 4, 5, 6]⟩, some ⟨[1, 1, 3, 2], [1, 2, 3, 4, 5, 6]⟩⟩

def xC2 : Tq := ⟨[1, 2, 2], [1, 2, 3, 4]⟩

/-- The FlowLM state after two cached passes (chunks of 1 and 2 tokens)
over the freshly reset tiny model. -/
def lmAfterC3 : FlowLM :=
  (forwardChunks simpleOps none [[0], [0, 1]] lmTiny.reset_cache).toOption.getD lmTiny

end PocketTTS

namespace PocketTTS

/-! # Shared lemmas -/

theorem foldl_max_abs_init (xs : List ℚ) (a : ℚ) :
    a ≤ xs.foldl (fun m s => max m |s|) a := by
  induction xs generalizing a with
  | nil => exact le_refl a
  | cons x xs ih =>
    simpa using le_trans (le_max_left a |x|) (ih (max a |x|))

theorem peakAbs_nonneg (xs : List ℚ) : 0 ≤ Audio.peakAbs xs :=
  foldl_max_abs_init xs 0

theorem foldl_max_abs_map_mul (c : ℚ) (hc : 0 ≤ c) (xs : List ℚ) (a : ℚ) :
    (xs.map (fun s => s * c)).foldl (fun m s => max m |s|) (c * a) =
      c * xs.foldl (fun m s => max m |s|) a := by
  induction xs generalizing a with
  | nil => simp
  | cons x xs ih =>
    simp only [List.map_cons, List.foldl_cons]
    rw [abs_mul, abs_of_nonneg hc, mul_comm |x| c, ← mul_max_of_nonneg _ _ hc, ih]

theorem peakAbs_map_mul (c : ℚ) (hc : 0 ≤ c) (xs : List ℚ) :
    Audio.peakAbs (xs.map (fun s => s * c)) = c * Audio.peakAbs xs := by
  have := foldl_max_abs_map_mul c hc xs 0
  simpa [Audio.peakAbs] using this

/-! # C8 — `normalize` -/

/-- C8 counterexample: the claim "normalize rescales every non-silent
buffer so that its peak absolute value is 0.95 ± 0.01 afterwards"
fails at the non-silent buffer `[1.0]`: `normalize` skips buffers
whose peak is exactly 1.0 (`max_abs != 1.0` guard), so the peak stays
at 1.0, outside 0.95 ± 0.01. -/
theorem C8_normalize_peak_one_counterexample :
    Audio.normalize [(1 : ℚ)] = [1] ∧
    Audio.peakAbs (Audio.normalize [(1 : ℚ)]) = 1 ∧
    (0.96 : ℚ) < Audio.peakAbs (Audio.normalize [(1 : ℚ)]) :=
  ⟨by decide!, by decide!, by decide!⟩

/-- C8 (amended): `normalize` maps every non-silent buffer whose peak
is not exactly 1.0 to a buffer of peak exactly 0.95 (well inside the
claimed 0.95 ± 0.01); buffers with peak 0 (all-zero) or with peak
exactly 1.0 are returned unchanged. -/
theorem C8_normalize_peak (xs : List ℚ) :
    (Audio.peakAbs xs = 0 ∨ Audio.peakAbs xs = 1 → Audio.normalize xs = xs) ∧
    (Audio.peakAbs xs ≠ 0 → Audio.peakAbs xs ≠ 1 →
      Audio.peakAbs (Audio.normalize xs) = 0.95) := by
  constructor
  · intro h
    unfold Audio.normalize
    rcases h with h | h <;> rw [h] <;> simp
  · intro h0 h1
    have hpos : 0 < Audio.peakAbs xs := lt_of_le_of_ne (peakAbs_nonneg xs) (Ne.symm h0)
    unfold Audio.normalize
    rw [if_pos ⟨hpos, h1⟩]
    rw [peakAbs_map_mul _ (by positivity)]
    field_simp

/-- C8 witness: `[1/2, -1/4]` is non-silent with peak `1/2 ∉ {0, 1}`
and is rescaled to peak exactly `0.95`; `[0, 0]` is unchanged. -/
theorem C8_normalize_peak_witness :
    Audio.peakAbs (Audio.normalize [(1 : ℚ)/2, -(1 : ℚ)/4]) = 0.95 ∧
    Audio.normalize [(0 : ℚ), 0] = [0, 0] :=
  ⟨(C8_normalize_peak [(1 : ℚ)/2, -(1 : ℚ)/4]).2 (by decide!) (by decide!),
   (C8_normalize_peak [(0 : ℚ), 0]).1 (Or.inl (by decide!))⟩

/-! # C7 — `TTSConfig::validate` -/

/-- C7: for every configuration with all five checked fields in their
ranges, `validate` returns `Ok`; for every configuration in which one
field is out of its range (the other checked fields in range — the
claim's "exactly one out" hypothesis provides this), `validate`
returns the error whose message names that field. -/
theorem C7_validate_ranges :
    (∀ c : TTSConfig, c.inRange → c.validate = .ok ()) ∧
    (∀ c : TTSConfig, 7 < c.voice_index →
      c.validate = .error ("Voice index must be 0-7, got " ++ toString c.voice_index)) ∧
    (∀ c : TTSConfig, c.voice_index ≤ 7 → (c.temperature < 0 ∨ 1 < c.temperature) →
      c.validate = .error ("Temperature must be 0.0-1.0, got " ++ toString c.temperature)) ∧
    (∀ c : TTSConfig, c.voice_index ≤ 7 → 0 ≤ c.temperature → c.temperature ≤ 1 →
      (c.top_p < 1/10 ∨ 1 < c.top_p) →
      c.validate = .error ("Top-P must be 0.1-1.0, got " ++ toString c.top_p)) ∧
    (∀ c : TTSConfig, c.voice_index ≤ 7 → 0 ≤ c.temperature → c.temperature ≤ 1 →
      1/10 ≤ c.top_p → c.top_p ≤ 1 → (c.speed < 1/2 ∨ 2 < c.speed) →
      c.validate = .error ("Speed must be 0.5-2.0, got " ++ toString c.speed)) ∧
    (∀ c : TTSConfig, c.voice_index ≤ 7 → 0 ≤ c.temperature → c.temperature ≤ 1 →
      1/10 ≤ c.top_p → c.top_p ≤ 1 → 1/2 ≤ c.speed → c.speed ≤ 2 →
      (c.consistency_steps < 1 ∨ 4 < c.consistency_steps) →
      c.validate = .error
        ("Consistency steps must be 1-4, got " ++ toString c.consistency_steps)) := by
  refine ⟨?_, ?_, ?_, ?_, ?_, ?_⟩ <;> intro c
  · rintro ⟨h1, h2, h3, h4, h5, h6, h7, h8, h9⟩
    unfold TTSConfig.validate
    rw [if_neg (by omega), if_neg (by push_neg; exact ⟨h2, h3⟩),
      if_neg (by push_neg; refine ⟨by norm_num; linarith, h5⟩),
      if_neg (by push_neg; refine ⟨by norm_num; linarith, h7⟩),
      if_neg (by omega)]
  · intro h
    unfold TTSConfig.validate
    rw [if_pos h]
  · intro h1 h2
    unfold TTSConfig.validate
    rw [if_neg (by omega), if_pos h2]
  · intro h1 h2 h3 h4
    have hp : c.top_p < 0.1 ∨ c.top_p > 1 := by
      rcases h4 with g | g
      · exact Or.inl (by norm_num; linarith)
      · exact Or.inr g
    unfold TTSConfig.validate
    rw [if_neg (by omega), if_neg (by push_neg; exact ⟨h2, h3⟩), if_pos hp]
  · intro h1 h2 h3 h4 h5 h6
    have hp : c.speed < 0.5 ∨ c.speed > 2 := by
      rcases h6 with g | g
      · exact Or.inl (by norm_num; linarith)
      · exact Or.inr g
    unfold TTSConfig.validate
    rw [if_neg (by omega), if_neg (by push_neg; exact ⟨h2, h3⟩),
      if_neg (by push_neg; refine ⟨by norm_num; linarith, h5⟩), if_pos hp]
  · intro h1 h2 h3 h4 h5 h6 h7 h8
    unfold TTSConfig.validate
    rw [if_neg (by omega), if_neg (by push_neg; exact ⟨h2, h3⟩),
      if_neg (by push_neg; refine ⟨by norm_num; linarith, h5⟩),
      if_neg (by push_neg; refine ⟨by norm_num; linarith, h7⟩),
      if_pos (by omega)]

/-- C7 witness: the default configuration validates; each field pushed
out of range individually yields the message naming that field. -/
theorem C7_validate_ranges_witness :
    TTSConfig.default.validate = .ok () ∧
    ({ TTSConfig.default with voice_index := 8 } : TTSConfig).validate =
      .error ("Voice index must be 0-7, got " ++ toString (8 : ℕ)) ∧
    ({ TTSConfig.default with temperature := 2 } : TTSConfig).validate =
      .error ("Temperature must be 0.0-1.0, got " ++ toString (2 : ℚ)) ∧
    ({ TTSConfig.default with top_p := 0 } : TTSConfig).validate =
      .error ("Top-P must be 0.1-1.0, got " ++ toString (0 : ℚ)) ∧
    ({ TTSConfig.default with speed := 3 } : TTSConfig).validate =
      .error ("Speed must be 0.5-2.0, got " ++ toString (3 : ℚ)) ∧
    ({ TTSConfig.default with consistency_steps := 5 } : TTSConfig).validate =
      .error ("Consistency steps must be 1-4, got " ++ toString (5 : ℕ)) :=
  ⟨C7_validate_ranges.1 TTSConfig.default (by constructor <;> norm_num [TTSConfig.default]),
   C7_validate_ranges.2.1 _ (by norm_num [TTSConfig.default]),
   C7_validate_ranges.2.2.1 _ (by norm_num [TTSConfig.default])
     (Or.inr (by norm_num [TTSConfig.default])),
   C7_validate_ranges.2.2.2.1 _ (by norm_num [TTSConfig.default])
     (by norm_num [TTSConfig.default]) (by norm_num [TTSConfig.default])
     (Or.inl (by norm_num [TTSConfig.default])),
   C7_validate_ranges.2.2.2.2.1 _ (by norm_num [TTSConfig.default])
     (by norm_num [TTSConfig.default]) (by norm_num [TTSConfig.default])
     (by norm_num [TTSConfig.default]) (by norm_num [TTSConfig.default])
     (Or.inr (by norm_num [TTSConfig.default])),
   C7_validate_ranges.2.2.2.2.2 _ (by norm_num [TTSConfig.default])
     (by norm_num [TTSConfig.default]) (by norm_num [TTSConfig.default])
     (by norm_num [TTSConfig.default]) (by norm_num [TTSConfig.default])
     (by norm_num [TTSConfig.default]) (by norm_num [TTSConfig.default])
     (Or.inr (by norm_num [TTSConfig.default]))⟩

end PocketTTS

namespace PocketTTS

/-! # C9 — tokenizer round trip, counterexample -/

/-- C9 counterexample: the claim "for every loaded vocabulary
containing each character of the text as a single-character token,
`decode(encode(text))` returns exactly `text`" fails for the loadable
vocabulary `{"a": 5}` and the text `"a"`: the id 5 is outside the
reverse table (the vocabulary has size 1), so `decode` emits the
replacement character U+FFFD instead of `"a"`. -/
theorem C9_roundtrip_counterexample :
    tkBad.encode "a" = [5] ∧
    tkBad.decode [5] = String.mk [Char.ofNat 0xFFFD] ∧
    tkBad.decode (tkBad.encode "a") ≠ "a" :=
  ⟨by decide!, by decide!, by decide!⟩

/-! # C1 — one-shot vs chunked equivalence -/

/-- C1 (code bug): running `MultiHeadAttention::forward` (the
attention core used by `FlowLM::forward`) on the two-token sequence
`xFullC1` in one shot and in two one-token chunks with KV-cache reuse
yields different outputs at the same sequence position, because the
tensors handed to `RotaryEmbedding::forward` are already transposed to
`[batch, heads, seq, head_dim]` while the rotary module reads the
sequence length from dim 1 and applies the cache-offset rows along the
heads axis: the offset-`1` rotation applied in the second chunk never
cancels against the unrotated cached keys.  Both runs succeed, and
their position-1 outputs differ. -/
theorem C1_chunked_vs_oneshot_diverges :
    oneShotC1 = .ok [4/3, 0] ∧
    chunkedC1.isOk = true ∧
    oneShotC1 ≠ chunkedC1 :=
  ⟨by decide!, by decide!, by decide!⟩

/-! # C2 — consistency steps -/

/-- C2 (code bug): `configure` stores the validated configuration but
never propagates `consistency_steps` to the sampler; `MLPSampler::new`
pins `num_steps` to 2, so `sample` always runs exactly two refinement
rounds.  The clamp `[1,4]` lives in `set_num_steps`, which no caller
invokes — and the round count is observable: one round and two rounds
of the refinement produce different outputs on `xC2`. -/
theorem C2_consistency_steps_not_wired :
    (∀ (m : PocketTTSModel) (cfg : TTSConfig) (m2 : PocketTTSModel),
      m.configure cfg = .ok m2 → m2.sampler = m.sampler) ∧
    (∀ i h o n vb, (MLPSampler.new i h o n vb).num_steps = 2) ∧
    (∀ (s : MLPSampler) (steps : ℕ),
      (s.set_num_steps steps).num_steps = min (max steps 1) 4 ∧
      1 ≤ (s.set_num_steps steps).num_steps ∧ (s.set_num_steps steps).num_steps ≤ 4) ∧
    (samplerTiny.set_num_steps 1).sample simpleOps xC2 1 1 ≠
      samplerTiny.sample simpleOps xC2 1 1 := by
  refine ⟨?_, ?_, ?_, by decide!⟩
  · intro m cfg m2 h
    unfold PocketTTSModel.configure at h
    cases hv : cfg.validate with
    | error e => rw [hv] at h; cases h
    | ok u => rw [hv] at h; cases h; rfl
  · intro i h o n vb; rfl
  · intro s steps
    refine ⟨rfl, ?_, ?_⟩ <;> simp [MLPSampler.set_num_steps]

/-- C2 witness: configuring the tiny model with the `low_latency`
preset (`consistency_steps = 1`) succeeds and leaves the sampler —
hence its hard-wired `num_steps = 2` — untouched. -/
theorem C2_consistency_steps_not_wired_witness :
    modelTiny.configure TTSConfig.low_latency =
      .ok { modelTiny with config := TTSConfig.low_latency } ∧
    ({ modelTiny with config := TTSConfig.low_latency } : PocketTTSModel).sampler
      = modelTiny.sampler ∧
    modelTiny.sampler.num_steps = 2 :=
  ⟨by decide!,
   C2_consistency_steps_not_wired.1 modelTiny TTSConfig.low_latency _ (by decide!),
   C2_consistency_steps_not_wired.2.1 2 2 2 1 vbZero⟩

/-! # C5 — decoder output length, counterexample -/

/-- C5 counterexample: a decoder built from a configuration with the
default stride schedule `[8,5,4,2,2]` (so `upsampling_ratio() = 640`)
maps one latent frame to 328 samples, not `1 × 640`: `new` only builds
`channels.len() - 1 = 4` blocks, the stride-5 transposed convolution
emits `5l + 1` samples, and the later strides amplify the extra
samples (`320·1 + 8 = 328`). -/
theorem C5_length_counterexample :
    (decTiny.forward simpleOps ⟨[1, 1, 1], [1]⟩).map Tq.dims = .ok [1, 328] ∧
    decTiny.upsamplingFactor = 640 ∧
    (328 : ℕ) ≠ 1 * 640 :=
  ⟨by decide!, by decide!, by decide!⟩

/-! # C6 — mid-stream failure, counterexample -/

/-- C6 counterexample: on the tiny model, synthesis of `"a"` fails
mid-stream (inside the sampler, after FlowLM has already appended the
chunk to the caches); the error is returned synchronously — but the
per-layer KV caches are NOT left cleared: `cache_seq_len` is 1, not 0.
(`reset_cache` runs at the start of the next call, not on error.) -/
theorem C6_caches_not_cleared_on_error :
    (modelTiny.synthesize_streaming simpleOps "a" cbTrue).1 =
      .error (.InferenceFailed "Sampler: matmul: shape mismatch") ∧
    (modelTiny.synthesize_streaming simpleOps "a" cbTrue).2.2.flowlm.cache_seq_len = 1 :=
  ⟨by decide!, by decide!⟩

/-! # C10 — the `is_final` flag -/

/-- C10 (code bug): the loop in `synthesize_streaming` does compute
`is_final` as `i == token_count / 32`, but the callback can never
observe it: every per-chunk pipeline errors before the first
invocation (`MLPSampler::sample` reduces the latents' rank by one per
round via `argmax`, and either its second round or the Mimi decoder
then rejects the rank-reduced tensor), so the loop aborts at chunk 0
with an empty invocation log — in particular no "last invocation with
`is_final = true`" exists even for token counts that are not multiples
of 32. -/
theorem C10_callback_never_invoked :
    (modelTiny.synthesize_streaming simpleOps "a" cbTrue).2.1 = [] ∧
    (modelTiny.synthesize_streaming simpleOps "a" cbTrue).1 ≠ .ok () ∧
    (modelTiny.tokenizer.encode "a").length = 1 :=
  ⟨by decide!, by decide!, by decide!⟩

end PocketTTS

namespace PocketTTS

/-! # C6 — amended -/

/-- C6 (amended): a mid-stream failure aborts the loop and returns
the error synchronously with the already-delivered chunks intact (the
counterexample theorem exhibits this), but the caches are NOT cleared
on the error path; instead every synthesis call starts with
`reset_cache`, so a new session is insensitive to whatever cache state
the previous (possibly failed) session left behind: replacing the
per-layer caches by any list of the same arity changes nothing about
`synthesize_streaming`'s result, invocation log, or final state. -/
theorem C6_reset_shields_next_session (m : PocketTTSModel) (cs : List KVCache)
    (ops : NumOps) (text : String) (cb : List ℚ → Bool → Bool)
    (hlen : cs.length = m.flowlm.kv_caches.length) :
    (m.withCaches cs).synthesize_streaming ops text cb =
      m.synthesize_streaming ops text cb := by
  have hclear : ∀ l : List KVCache, l.map (fun c => c.clear) =
      List.replicate l.length ⟨none, none⟩ := by
    intro l
    induction l with
    | nil => rfl
    | cons x xs ih => simp [KVCache.clear, ih, List.replicate_succ]
  have hfl : (m.flowlm.withCaches cs).reset_cache = m.flowlm.reset_cache := by
    unfold FlowLM.withCaches FlowLM.reset_cache
    congr 1
    rw [hclear, hclear, hlen]
  unfold PocketTTSModel.synthesize_streaming PocketTTSModel.withCaches
    PocketTTSModel.getVoice
  simp only [hfl]

/-- C6 amended witness: on the tiny model, running a session after
planting a dirty (non-empty) cache gives exactly the same run as from
the clean model. -/
theorem C6_reset_shields_next_session_witness :
    (modelTiny.withCaches [dirtyCache]).synthesize_streaming simpleOps "a" cbTrue =
      modelTiny.synthesize_streaming simpleOps "a" cbTrue :=
  C6_reset_shields_next_session modelTiny [dirtyCache] simpleOps "a" cbTrue (by decide!)

end PocketTTS

namespace PocketTTS

/-! # Extraction lemmas for `Except` chains and tensor ops -/

theorem bindE_ok {ε α β : Type} {x : Except ε α} {f : α → Except ε β} {b : β} :
    (x >>= f) = .ok b ↔ ∃ a, x = .ok a ∧ f a = .ok b := by
  cases x <;> simp [Bind.bind, Except.bind]

theorem pureE_ok {ε α : Type} {a b : α} :
    (pure a : Except ε α) = .ok b ↔ a = b := by
  simp [pure, Except.pure]

theorem mapErrorE_ok {ε ε' α : Type} {x : Except ε α} {f : ε → ε'} {b : α} :
    x.mapError f = .ok b ↔ x = .ok b := by
  cases x <;> simp [Except.mapError]

@[simp] theorem ofFn_dims (dims : List ℕ) (f : List ℕ → ℚ) :
    (Tq.ofFn dims f).dims = dims := rfl

theorem dim_ok {t : Tq} {i d : ℕ} (h : t.dim i = .ok d) : t.dims.get? i = some d := by
  unfold Tq.dim at h
  cases hg : t.dims.get? i <;> rw [hg] at h <;> cases h <;> rfl

theorem dims3_ok {t : Tq} {v : ℕ × ℕ × ℕ} (h : t.dims3 = .ok v) :
    t.dims = [v.1, v.2.1, v.2.2] := by
  unfold Tq.dims3 at h
  split at h
  · next a b c heq => cases h; exact heq
  · cases h

theorem reshape_ok_dims {t : Tq} {nd : List ℕ} {y : Tq} (h : t.reshape nd = .ok y) :
    y.dims = nd := by
  unfold Tq.reshape at h
  split at h <;> cases h <;> rfl

theorem transpose_ok_dims {t : Tq} {d1 d2 : ℕ} {y : Tq} (h : t.transpose d1 d2 = .ok y) :
    y.dims = (t.dims.set d1 (t.dims.getD d2 0)).set d2 (t.dims.getD d1 0) := by
  unfold Tq.transpose at h
  split at h <;> cases h <;> rfl

theorem narrow_ok_dims {t : Tq} {d s l : ℕ} {y : Tq} (h : t.narrow d s l = .ok y) :
    y.dims = t.dims.set d l := by
  unfold Tq.narrow at h
  split at h <;> cases h <;> rfl

theorem catTwo_ok_dims {d : ℕ} {a b y : Tq} (h : Tq.catTwo d a b = .ok y) :
    y.dims = a.dims.set d (a.dims.getD d 0 + b.dims.getD d 0) := by
  unfold Tq.catTwo at h
  split at h <;> cases h <;> rfl

theorem catTwo_ok_rank {d : ℕ} {a b y : Tq} (h : Tq.catTwo d a b = .ok y) :
    d < a.dims.length := by
  unfold Tq.catTwo at h
  split at h
  · next hc => exact hc.1
  · cases h

theorem sameBin_ok_dims {f : ℚ → ℚ → ℚ} {a b y : Tq} (h : Tq.sameBin f a b = .ok y) :
    y.dims = a.dims := by
  unfold Tq.sameBin at h
  split at h <;> cases h <;> rfl

theorem broadcastBin_ok_dims {f : ℚ → ℚ → ℚ} {a b y : Tq}
    (h : Tq.broadcastBin f a b = .ok y) :
    Tq.broadcastDims a.dims b.dims = some y.dims := by
  unfold Tq.broadcastBin at h
  cases hb : Tq.broadcastDims a.dims b.dims <;> rw [hb] at h
  · cases h
  · cases h; rfl

theorem squeeze_ok_dims {t : Tq} {d : ℕ} {y : Tq} (h : t.squeeze d = .ok y) :
    y.dims = t.dims.take d ++ t.dims.drop (d + 1) := by
  unfold Tq.squeeze at h
  split at h <;> cases h <;> rfl

theorem unsqueeze_ok_dims {t : Tq} {d : ℕ} {y : Tq} (h : t.unsqueeze d = .ok y) :
    y.dims = t.dims.take d ++ 1 :: t.dims.drop d := by
  unfold Tq.unsqueeze at h
  split at h <;> cases h <;> rfl

@[simp] theorem mapU_dims (t : Tq) (f : ℚ → ℚ) : (t.mapU f).dims = t.dims := rfl

@[simp] theorem scalarMul_dims (t : Tq) (c : ℚ) : (t.scalarMul c).dims = t.dims := rfl

@[simp] theorem meanKeepdimLast_dims (t : Tq) :
    (meanKeepdimLast t).dims = t.dims.dropLast ++ [1] := rfl

theorem linear_ok_dims {lin : Linear} {x y : Tq} (h : lin.forward x = .ok y) :
    ∃ o, y.dims = x.dims.dropLast ++ [o] := by
  unfold Linear.forward at h
  split at h
  · split at h
    · cases h; exact ⟨_, rfl⟩
    · cases h
  · cases h

theorem textEmbedding_ok_dims {e : TextEmbedding} {ids : List ℕ} {y : Tq}
    (h : e.forward ids = .ok y) : ∃ hd, y.dims = [1, ids.length, hd] := by
  unfold TextEmbedding.forward at h
  split at h
  · split at h
    · cases h; exact ⟨_, rfl⟩
    · cases h
  · cases h

end PocketTTS

namespace PocketTTS

theorem sameBin_ok_eq {f : ℚ → ℚ → ℚ} {a b y : Tq} (h : Tq.sameBin f a b = .ok y) :
    a.dims = b.dims ∧ y.dims = a.dims := by
  unfold Tq.sameBin at h
  split at h
  · next hc => cases h; exact ⟨hc, rfl⟩
  · cases h

theorem bcast_keepdim (a b c : ℕ) :
    Tq.broadcastDims [a, b, c] [a, b, 1] = some [a, b, max c 1] := by
  simp [Tq.broadcastDims, Tq.bcastRev, max_self]

theorem bcast4_ok {p q r s t u : ℕ} {zs : List ℕ}
    (h : Tq.broadcastDims [p, q, r, s] [1, t, 1, u] = some zs) :
    zs = [max p 1, max q t, max r 1, max s u] := by
  by_cases h1 : (s = u ∨ s = 1 ∨ u = 1)
  · by_cases h2 : (q = t ∨ q = 1 ∨ t = 1)
    · simp [Tq.broadcastDims, Tq.bcastRev, h1, h2] at h
      simp [← h]
    · simp [Tq.broadcastDims, Tq.bcastRev, h1, h2] at h
  · simp [Tq.broadcastDims, Tq.bcastRev, h1] at h

/-- `KVCache` state sanity: key and value caches are both present or
both absent (every state the code constructs satisfies this). -/
def KVCache.wfS (c : KVCache) : Prop := c.k_cache.isSome = c.v_cache.isSome

theorem update_ok_facts {c : KVCache} {k v : Tq} {out : Tq × Tq × KVCache}
    (hwf : c.wfS) (hrank : 2 < k.dims.length)
    (h : c.update k v = .ok out) :
    out.2.2.seq_len = c.seq_len + k.dims.getD 2 0 ∧
    out.2.2.k_cache.isSome ∧ out.2.2.v_cache.isSome := by
  unfold KVCache.update at h
  cases hk : c.k_cache with
  | none =>
    cases hv : c.v_cache with
    | none =>
      rw [hk, hv] at h
      simp only [bind, Except.bind, pure, Except.pure] at h
      cases h
      refine ⟨?_, rfl, rfl⟩
      cases hg : k.dims[2]? with
      | none => exact absurd (List.getElem?_eq_none_iff.mp hg) (by omega)
      | some d =>
        simp [KVCache.seq_len, hk, Tq.dim, hg, Except.toOption]
    | some vc =>
      exfalso
      simp [KVCache.wfS, hk, hv] at hwf
  | some kc =>
    cases hv : c.v_cache with
    | none =>
      exfalso
      simp [KVCache.wfS, hk, hv] at hwf
    | some vc =>
      rw [hk, hv] at h
      simp only [] at h
      cases hkN : Tq.catTwo 2 kc k with
      | error e =>
        rw [hkN] at h
        simp only [bind, Except.bind, pure, Except.pure] at h
        exact Except.noConfusion h
      | ok kN =>
        cases hvN : Tq.catTwo 2 vc v with
        | error e =>
          rw [hkN, hvN] at h
          simp only [bind, Except.bind, pure, Except.pure] at h
          exact Except.noConfusion h
        | ok vN =>
          rw [hkN, hvN] at h
          simp only [bind, Except.bind, pure, Except.pure] at h
          cases h
          have hrk := catTwo_ok_rank hkN
          have hdk := catTwo_ok_dims hkN
          refine ⟨?_, rfl, rfl⟩
          simp only [KVCache.seq_len, hk, Option.map_some', Option.getD_some, Tq.dim,
            List.get?_eq_getElem?]
          rw [hdk]
          have hget : (kc.dims.set 2 (kc.dims.getD 2 0 + k.dims.getD 2 0))[2]? =
              some (kc.dims.getD 2 0 + k.dims.getD 2 0) := List.getElem?_set_self hrk
          rw [hget]
          cases hg : kc.dims[2]? with
          | none => exact absurd (List.getElem?_eq_none_iff.mp hg) (by omega)
          | some d =>
            simp [hg, Except.toOption, List.getD_eq_getElem?_getD]

end PocketTTS

namespace PocketTTS

theorem applyRotary_ok_dims {rope : RotaryEmbedding} {xx cosN sinN yy : Tq}
    {p q r s t u t2 u2 : ℕ}
    (hx : xx.dims = [p, q, r, s]) (hcos : cosN.dims = [t, u]) (hsin : sinN.dims = [t2, u2])
    (h : rope.applyRotary xx cosN sinN = .ok yy) :
    ∃ q2 w, yy.dims = [max p 1, q2, max r 1, w] := by
  unfold RotaryEmbedding.applyRotary at h
  rw [bindE_ok] at h
  obtain ⟨x1, hx1, h⟩ := h
  rw [bindE_ok] at h
  obtain ⟨x2, hx2, h⟩ := h
  rw [bindE_ok] at h
  obtain ⟨cu0, hcu0, h⟩ := h
  rw [bindE_ok] at h
  obtain ⟨cu, hcu, h⟩ := h
  rw [bindE_ok] at h
  obtain ⟨su0, hsu0, h⟩ := h
  rw [bindE_ok] at h
  obtain ⟨su, hsu, h⟩ := h
  rw [bindE_ok] at h
  obtain ⟨a1, ha1, h⟩ := h
  rw [bindE_ok] at h
  obtain ⟨b1, hb1, h⟩ := h
  rw [bindE_ok] at h
  obtain ⟨r1, hr1, h⟩ := h
  rw [bindE_ok] at h
  obtain ⟨a2, ha2, h⟩ := h
  rw [bindE_ok] at h
  obtain ⟨b2, hb2, h⟩ := h
  rw [bindE_ok] at h
  obtain ⟨r2, hr2, h⟩ := h
  -- dims of the first rotated half
  have hx1d : x1.dims = [p, q, r, rope.dim / 2] := by
    have := narrow_ok_dims hx1
    rw [hx] at this
    simpa [hx] using this
  have hcud : cu.dims = [1, t, 1, u] := by
    have h0 := unsqueeze_ok_dims hcu0
    rw [hcos] at h0
    have h1 := unsqueeze_ok_dims hcu
    rw [h0] at h1
    simpa using h1
  have ha1d : a1.dims = [max p 1, max q t, max r 1, max (rope.dim / 2) u] := by
    have hb := broadcastBin_ok_dims ha1
    rw [hx1d, hcud] at hb
    exact bcast4_ok hb
  have hr1d : r1.dims = a1.dims := (sameBin_ok_eq hr1).2
  have hcat := catTwo_ok_dims h
  have hlast : xx.dims.length - 1 = 3 := by rw [hx]; rfl
  rw [hcat, hr1d, ha1d, hlast]
  exact ⟨q ⊔ t, _, rfl⟩

end PocketTTS

namespace PocketTTS

theorem rope_forward_kR_dims {rope : RotaryEmbedding} {q k qR kR : Tq}
    {off b H s1 hd M1 u1 M2 u2 : ℕ}
    (hq : q.dims = [b, H, s1, hd]) (hk : k.dims = [b, H, s1, hd])
    (hcc : rope.cos_cache.dims = [M1, u1]) (hsc : rope.sin_cache.dims = [M2, u2])
    (h : rope.forward q k off = .ok (qR, kR)) :
    ∃ q2 w, kR.dims = [max b 1, q2, max s1 1, w] := by
  unfold RotaryEmbedding.forward at h
  rw [bindE_ok] at h
  obtain ⟨sl, hsl, h⟩ := h
  split at h
  · exact Except.noConfusion h
  · rw [bindE_ok] at h
    obtain ⟨cosN, hcosN, h⟩ := h
    rw [bindE_ok] at h
    obtain ⟨sinN, hsinN, h⟩ := h
    rw [bindE_ok] at h
    obtain ⟨qR2, hqR, h⟩ := h
    rw [bindE_ok] at h
    obtain ⟨kR2, hkR, h⟩ := h
    simp only [Except.ok.injEq, Prod.mk.injEq] at h
    obtain ⟨h1, h2⟩ := h
    subst h1
    subst h2
    have hcosd : cosN.dims = [sl, u1] := by
      have := narrow_ok_dims hcosN
      rw [hcc] at this
      simpa using this
    have hsind : sinN.dims = [sl, u2] := by
      have := narrow_ok_dims hsinN
      rw [hsc] at this
      simpa using this
    exact applyRotary_ok_dims hk hcosd hsind hkR

theorem mha_forward_cache {mha : MultiHeadAttention} {ops : NumOps} {x : Tq}
    {rope : RotaryEmbedding} {c : KVCache} {y : Tq} {cOut : Option KVCache}
    {M1 u1 M2 u2 : ℕ}
    (hwf : c.wfS)
    (hcc : rope.cos_cache.dims = [M1, u1]) (hsc : rope.sin_cache.dims = [M2, u2])
    (h : mha.forward ops x (some rope) (some c) true = .ok (y, cOut)) :
    ∃ c' b1 s1 o, cOut = some c' ∧ y.dims = [b1, s1, o] ∧
      c'.seq_len = c.seq_len + max s1 1 ∧
      c'.k_cache.isSome ∧ c'.v_cache.isSome := by
  unfold MultiHeadAttention.forward at h
  rw [bindE_ok] at h
  obtain ⟨d3, hd3, h⟩ := h
  obtain ⟨b1, s1, hd⟩ := d3
  rw [bindE_ok] at h
  obtain ⟨q0, hq0, h⟩ := h
  rw [bindE_ok] at h
  obtain ⟨k0, hk0, h⟩ := h
  rw [bindE_ok] at h
  obtain ⟨v0, hv0, h⟩ := h
  rw [bindE_ok] at h
  obtain ⟨q1, hq1, h⟩ := h
  rw [bindE_ok] at h
  obtain ⟨k1, hk1, h⟩ := h
  rw [bindE_ok] at h
  obtain ⟨v1, hv1, h⟩ := h
  rw [bindE_ok] at h
  obtain ⟨q2, hq2, h⟩ := h
  rw [bindE_ok] at h
  obtain ⟨k2, hk2, h⟩ := h
  rw [bindE_ok] at h
  obtain ⟨v2, hv2, h⟩ := h
  try simp only [] at h
  rw [bindE_ok] at h
  obtain ⟨qk, hqk, h⟩ := h
  obtain ⟨q3, k3⟩ := qk
  try simp only [] at h
  rw [bindE_ok] at h
  obtain ⟨upd, hupd, h⟩ := h
  obtain ⟨k4, v4, cOut0⟩ := upd
  rw [bindE_ok] at h
  obtain ⟨kvc, hpure, h⟩ := h
  rw [pureE_ok] at hpure
  subst hpure
  try simp only [] at h
  rw [bindE_ok] at h
  obtain ⟨kT, hkT, h⟩ := h
  rw [bindE_ok] at h
  obtain ⟨attn0, hattn0, h⟩ := h
  rw [bindE_ok] at h
  obtain ⟨kvLen, hkvLen, h⟩ := h
  rw [bindE_ok] at h
  obtain ⟨attnV, hattnV, h⟩ := h
  rw [bindE_ok] at h
  obtain ⟨attnT, hattnT, h⟩ := h
  rw [bindE_ok] at h
  obtain ⟨attnR, hattnR, h⟩ := h
  rw [bindE_ok] at h
  obtain ⟨out, hout, h⟩ := h
  simp only [Except.ok.injEq, Prod.mk.injEq] at h
  obtain ⟨hy, hco⟩ := h
  subst hy
  have hq2d : q2.dims = [b1, mha.num_heads, s1, mha.head_dim] := by
    have hr := reshape_ok_dims hq1
    have ht := transpose_ok_dims hq2
    rw [hr] at ht
    simpa using ht
  have hk2d : k2.dims = [b1, mha.num_heads, s1, mha.head_dim] := by
    have hr := reshape_ok_dims hk1
    have ht := transpose_ok_dims hk2
    rw [hr] at ht
    simpa using ht
  obtain ⟨q4, w4, hk3d⟩ := rope_forward_kR_dims hq2d hk2d hcc hsc hqk
  have hfacts := update_ok_facts hwf (by simp [hk3d]) hupd
  have houtd : ∃ o, out.dims = [b1, s1, o] := by
    have hrr := reshape_ok_dims hattnR
    obtain ⟨o, ho⟩ := linear_ok_dims hout
    rw [hrr] at ho
    exact ⟨o, by simpa using ho⟩
  obtain ⟨o, ho⟩ := houtd
  refine ⟨cOut0, b1, s1, o, ?_, ho, ?_, ?_, ?_⟩
  · rw [← hco]
  · have hg := hfacts.1
    rw [hk3d] at hg
    simpa using hg
  · exact hfacts.2.1
  · exact hfacts.2.2

end PocketTTS

namespace PocketTTS

theorem layer_forward_facts {l : TransformerLayer} {ops : NumOps} {x : Tq}
    {rot : RotaryEmbedding} {c : KVCache} {out : Tq} {cOut : Option KVCache}
    {a n hd0 M1 u1 M2 u2 : ℕ}
    (hx : x.dims = [a, n, hd0]) (hn : 1 ≤ n) (hwf : c.wfS)
    (hcc : rot.cos_cache.dims = [M1, u1]) (hsc : rot.sin_cache.dims = [M2, u2])
    (h : l.forward ops x rot (some c) = .ok (out, cOut)) :
    ∃ c', cOut = some c' ∧ c'.seq_len = c.seq_len + n ∧ c'.wfS ∧ out.dims = x.dims := by
  unfold TransformerLayer.forward at h
  rw [bindE_ok] at h
  obtain ⟨x1, hx1, h⟩ := h
  rw [bindE_ok] at h
  obtain ⟨att, hatt, h⟩ := h
  obtain ⟨x2, cacheOut⟩ := att
  try simp only [] at h
  rw [bindE_ok] at h
  obtain ⟨x3, hx3, h⟩ := h
  rw [bindE_ok] at h
  obtain ⟨x4, hx4, h⟩ := h
  rw [bindE_ok] at h
  obtain ⟨x5, hx5, h⟩ := h
  rw [bindE_ok] at h
  obtain ⟨out2, hout2, h⟩ := h
  simp only [Except.ok.injEq, Prod.mk.injEq] at h
  obtain ⟨ho, hc⟩ := h
  subst ho
  obtain ⟨c', b1, s1, o, hcOut, hx2d, hgrow, hks, hvs⟩ :=
    mha_forward_cache hwf hcc hsc hatt
  have hxeq := sameBin_ok_eq hx3
  have hs1 : s1 = n := by
    have := hxeq.1
    rw [hx, hx2d] at this
    exact (List.cons.injEq _ _ _ _).mp ((List.cons.injEq _ _ _ _).mp this).2 |>.1.symm
  have houtd : out2.dims = x.dims := by
    have h1 := (sameBin_ok_eq hout2).2
    have h2 := hxeq.2
    rw [h1, h2]
  refine ⟨c', by rw [← hc, hcOut], ?_, ?_, houtd⟩
  · rw [hgrow, hs1]
    have : max n 1 = n := Nat.max_eq_left hn
    rw [this]
  · simp [KVCache.wfS, Option.isSome_iff_exists] at hks hvs ⊢
    obtain ⟨kk, hkk⟩ := hks
    obtain ⟨vv, hvv⟩ := hvs
    simp [hkk, hvv]

theorem runLayers_cons_facts {ops : NumOps} {rot : RotaryEmbedding}
    {l0 : TransformerLayer} {c0 : KVCache} {rest : List (TransformerLayer × KVCache)}
    {x hF : Tq} {caches : List KVCache} {a n hd0 M1 u1 M2 u2 : ℕ}
    (hx : x.dims = [a, n, hd0]) (hn : 1 ≤ n) (hwf : c0.wfS)
    (hcc : rot.cos_cache.dims = [M1, u1]) (hsc : rot.sin_cache.dims = [M2, u2])
    (h : runLayers ops rot true ((l0, c0) :: rest) x = .ok (hF, caches)) :
    ∃ c' caches2, caches = c' :: caches2 ∧
      c'.seq_len = c0.seq_len + n ∧ c'.wfS := by
  unfold runLayers at h
  rw [bindE_ok] at h
  obtain ⟨lr, hlr, h⟩ := h
  obtain ⟨h2, cacheOut⟩ := lr
  try simp only [] at h
  rw [bindE_ok] at h
  obtain ⟨rl, hrl, h⟩ := h
  obtain ⟨hFr, caches2⟩ := rl
  simp only [Except.ok.injEq, Prod.mk.injEq] at h
  obtain ⟨hh, hcs⟩ := h
  obtain ⟨c', hcOut, hgrow, hwf2, _⟩ := layer_forward_facts hx hn hwf hcc hsc hlr
  refine ⟨c', caches2, ?_, hgrow, hwf2⟩
  rw [← hcs, hcOut]

end PocketTTS

namespace PocketTTS

theorem flowlm_forward_cache_growth {m : FlowLM} {ops : NumOps} {chunk : List ℕ}
    {voice : Option VoiceEmbedding} {y : Tq} {m2 : FlowLM} {M1 u1 M2 u2 : ℕ}
    (hn : chunk ≠ []) (hlay : m.layers ≠ [])
    (hwf : (m.kv_caches.headD KVCache.new).wfS)
    (hcc : m.rotary.cos_cache.dims = [M1, u1])
    (hsc : m.rotary.sin_cache.dims = [M2, u2])
    (h : m.forward ops chunk voice true = .ok (y, m2)) :
    m2.cache_seq_len = m.cache_seq_len + chunk.length ∧
    m2.layers = m.layers ∧ m2.rotary = m.rotary ∧
    (m2.kv_caches.headD KVCache.new).wfS := by
  unfold FlowLM.forward at h
  split at h
  · exact Except.noConfusion h
  · next hguard =>
    have hclen : m.layers.length ≤ m.kv_caches.length := by
      by_contra hq
      exact hguard ⟨rfl, by omega⟩
    have hn1 : 1 ≤ chunk.length := by
      cases chunk with
      | nil => exact absurd rfl hn
      | cons a l => simp
    rw [bindE_ok] at h
    obtain ⟨hid0, hhid0, h⟩ := h
    obtain ⟨hd, hhd⟩ := textEmbedding_ok_dims hhid0
    cases hlays : m.layers with
    | nil => exact absurd hlays hlay
    | cons l0 ls =>
      cases hcs : m.kv_caches with
      | nil =>
        exfalso
        rw [hlays, hcs] at hclen
        simp at hclen
      | cons c0 cs =>
        have hwf0 : c0.wfS := by
          rw [hcs] at hwf
          simpa using hwf
        cases voice with
        | none =>
          try simp only [] at h
          rw [bindE_ok] at h
          obtain ⟨hid1, hp, h⟩ := h
          rw [pureE_ok] at hp
          subst hp
          rw [bindE_ok] at h
          obtain ⟨rl, hrl, h⟩ := h
          obtain ⟨hid2, cachesOut⟩ := rl
          try try simp only [] at h
          rw [bindE_ok] at h
          obtain ⟨hid3, hhid3, h⟩ := h
          rw [bindE_ok] at h
          obtain ⟨lat, hlat, h⟩ := h
          simp only [Except.ok.injEq, Prod.mk.injEq] at h
          obtain ⟨hy, hm2⟩ := h
          rw [hlays, hcs] at hrl
          simp only [List.zip_cons_cons] at hrl
          obtain ⟨c', caches2, hco, hgrow, hwf2⟩ :=
            runLayers_cons_facts hhd hn1 hwf0 hcc hsc hrl
          rw [← hm2]
          refine ⟨?_, hlays, rfl, ?_⟩
          · simp only [FlowLM.cache_seq_len, hco, List.cons_append, List.head?_cons,
              Option.map_some', Option.getD_some, hcs]
            exact hgrow
          · simp only [hco, List.cons_append, List.headD_cons]
            exact hwf2
        | some v =>
          try simp only [] at h
          rw [bindE_ok] at h
          obtain ⟨d3, hd3, h⟩ := h
          obtain ⟨bb, ss, dd⟩ := d3
          try try simp only [] at h
          rw [bindE_ok] at h
          obtain ⟨ve, hve, h⟩ := h
          rw [bindE_ok] at h
          obtain ⟨hid1, hhid1, h⟩ := h
          have hhid1d : hid1.dims = [1, chunk.length, hd] := by
            rw [(sameBin_ok_eq hhid1).2, hhd]
          rw [bindE_ok] at h
          obtain ⟨rl, hrl, h⟩ := h
          obtain ⟨hid2, cachesOut⟩ := rl
          try try simp only [] at h
          rw [bindE_ok] at h
          obtain ⟨hid3, hhid3, h⟩ := h
          rw [bindE_ok] at h
          obtain ⟨lat, hlat, h⟩ := h
          simp only [Except.ok.injEq, Prod.mk.injEq] at h
          obtain ⟨hy, hm2⟩ := h
          rw [hlays, hcs] at hrl
          simp only [List.zip_cons_cons] at hrl
          obtain ⟨c', caches2, hco, hgrow, hwf2⟩ :=
            runLayers_cons_facts hhid1d hn1 hwf0 hcc hsc hrl
          rw [← hm2]
          refine ⟨?_, hlays, rfl, ?_⟩
          · simp only [FlowLM.cache_seq_len, hco, List.cons_append, List.head?_cons,
              Option.map_some', Option.getD_some, hcs]
            exact hgrow
          · simp only [hco, List.cons_append, List.headD_cons]
            exact hwf2

end PocketTTS

namespace PocketTTS

theorem reset_cache_head_wfS (m : FlowLM) :
    (m.reset_cache.kv_caches.headD KVCache.new).wfS := by
  cases hc : m.kv_caches with
  | nil => simp [FlowLM.reset_cache, hc, KVCache.new, KVCache.wfS]
  | cons c0 cs => simp [FlowLM.reset_cache, hc, KVCache.clear, KVCache.wfS]

theorem forwardChunks_seq_len {ops : NumOps} {voice : Option VoiceEmbedding}
    {M1 u1 M2 u2 : ℕ} :
    ∀ (chunks : List (List ℕ)) (m m2 : FlowLM),
    (∀ ch ∈ chunks, ch ≠ []) → m.layers ≠ [] →
    (m.kv_caches.headD KVCache.new).wfS →
    m.rotary.cos_cache.dims = [M1, u1] →
    m.rotary.sin_cache.dims = [M2, u2] →
    forwardChunks ops voice chunks m = .ok m2 →
    m2.cache_seq_len = m.cache_seq_len + (chunks.map List.length).sum := by
  intro chunks
  induction chunks with
  | nil =>
    intro m m2 _ _ _ _ _ h
    simp only [forwardChunks, Except.ok.injEq] at h
    subst h
    simp
  | cons c rest ih =>
    intro m m2 hne hlay hwf hcc hsc h
    simp only [forwardChunks] at h
    rw [bindE_ok] at h
    obtain ⟨p, hp, h⟩ := h
    obtain ⟨y1, m1⟩ := p
    try simp only [] at h
    obtain ⟨hg, hl, hr, hw⟩ :=
      flowlm_forward_cache_growth (hne c (by simp)) hlay hwf hcc hsc hp
    have hrest := ih m1 m2 (fun ch hch => hne ch (by simp [hch]))
      (by rw [hl]; exact hlay) hw (by rw [hr]; exact hcc) (by rw [hr]; exact hsc) h
    rw [hrest, hg]
    simp only [List.map_cons, List.sum_cons]
    omega

end PocketTTS

namespace PocketTTS

/-- C3: `KVCache::seq_len` is 0 for every per-layer cache immediately after
`FlowLM::reset_cache` (in particular `cache_seq_len` is 0); `KVCache::update`
is append-only (with a non-empty cache it concatenates the new keys/values
onto the stored tensors along the sequence axis, and `seq_len` always grows
by the new chunk's sequence length); and after N cached forward passes since
a reset, `cache_seq_len` equals the sum of the N chunks' token counts. -/
theorem C3_cache_invariant :
    (∀ m : FlowLM, m.reset_cache.cache_seq_len = 0 ∧
        ∀ c ∈ m.reset_cache.kv_caches, c.seq_len = 0) ∧
    (∀ (c : KVCache) (k v : Tq) (out : Tq × Tq × KVCache),
        c.wfS → 2 < k.dims.length → c.update k v = .ok out →
        out.2.2.seq_len = c.seq_len + k.dims.getD 2 0 ∧
        (∀ kc vc, c.k_cache = some kc → c.v_cache = some vc →
          ∃ kN vN, Tq.catTwo 2 kc k = .ok kN ∧ Tq.catTwo 2 vc v = .ok vN ∧
            out.2.2 = ⟨some kN, some vN⟩)) ∧
    (∀ (ops : NumOps) (voice : Option VoiceEmbedding) (M1 u1 M2 u2 : ℕ)
        (chunks : List (List ℕ)) (m m2 : FlowLM),
        (∀ ch ∈ chunks, ch ≠ []) → m.layers ≠ [] →
        m.rotary.cos_cache.dims = [M1, u1] →
        m.rotary.sin_cache.dims = [M2, u2] →
        forwardChunks ops voice chunks m.reset_cache = .ok m2 →
        m2.cache_seq_len = (chunks.map List.length).sum) := by
  refine ⟨?_, ?_, ?_⟩
  · intro m
    constructor
    · cases hc : m.kv_caches with
      | nil => simp [FlowLM.reset_cache, FlowLM.cache_seq_len, hc]
      | cons c0 cs =>
        simp [FlowLM.reset_cache, FlowLM.cache_seq_len, hc, KVCache.clear,
          KVCache.seq_len]
    · intro c hc
      simp only [FlowLM.reset_cache, List.mem_map] at hc
      obtain ⟨c0, _, hc0⟩ := hc
      rw [← hc0]
      simp [KVCache.clear, KVCache.seq_len]
  · intro c k v out hwf hrank hupd
    refine ⟨(update_ok_facts hwf hrank hupd).1, ?_⟩
    intro kc vc hkc hvc
    unfold KVCache.update at hupd
    rw [hkc, hvc] at hupd
    try simp only [] at hupd
    cases hkN : Tq.catTwo 2 kc k with
    | error e =>
      rw [hkN] at hupd
      simp only [bind, Except.bind] at hupd
      exact Except.noConfusion hupd
    | ok kN =>
      rw [hkN] at hupd
      cases hvN : Tq.catTwo 2 vc v with
      | error e =>
        rw [hvN] at hupd
        simp only [bind, Except.bind] at hupd
        exact Except.noConfusion hupd
      | ok vN =>
        rw [hvN] at hupd
        simp only [bind, Except.bind, pure, Except.pure, Except.ok.injEq] at hupd
        exact ⟨kN, vN, rfl, rfl, by rw [← hupd]⟩
  · intro ops voice M1 u1 M2 u2 chunks m m2 hne hlay hcc hsc h
    have hz : m.reset_cache.cache_seq_len = 0 := by
      cases hc : m.kv_caches with
      | nil => simp [FlowLM.reset_cache, FlowLM.cache_seq_len, hc]
      | cons c0 cs =>
        simp [FlowLM.reset_cache, FlowLM.cache_seq_len, hc, KVCache.clear,
          KVCache.seq_len]
    have := forwardChunks_seq_len chunks m.reset_cache m2 hne hlay
      (reset_cache_head_wfS m) hcc hsc h
    rw [this, hz, Nat.zero_add]

/-- Witness: the tiny 1-layer model, reset, then two cached passes with
chunks of 1 and 2 tokens, ends with `cache_seq_len` 3 = 1 + 2. -/
theorem C3_cache_invariant_witness :
    forwardChunks simpleOps none [[0], [0, 1]] lmTiny.reset_cache = .ok lmAfterC3 ∧
    lmAfterC3.cache_seq_len = 3 := by
  have hok : forwardChunks simpleOps none [[0], [0, 1]] lmTiny.reset_cache =
      .ok lmAfterC3 := by decide!
  refine ⟨hok, ?_⟩
  have h := C3_cache_invariant.2.2 simpleOps none 4 1 4 1 [[0], [0, 1]]
    lmTiny lmAfterC3 (by decide) (by decide!) (by decide!) (by decide!) hok
  rw [h]
  rfl

end PocketTTS

namespace PocketTTS

/-! ## Data-level lemmas for the streaming crossfade (C4) -/

theorem rangeMap_getD (f : ℕ → ℚ) {n i : ℕ} (h : i < n) :
    ((List.range n).map f).getD i 0 = f i := by
  rw [List.getD_eq_getElem?_getD, List.getElem?_map, List.getElem?_range h]
  rfl

theorem rangeMap_getD_drop (l : List ℚ) (s k : ℕ) (hk : s + k = l.length) :
    (List.range k).map (fun i => l.getD (s + i) 0) = l.drop s := by
  apply List.ext_getElem?
  intro i
  rw [List.getElem?_drop]
  by_cases hi : i < k
  · rw [List.getElem?_map, List.getElem?_range hi, Option.map_some']
    rw [List.getD_eq_getElem?_getD]
    have hlt : s + i < l.length := by omega
    rw [List.getElem?_eq_getElem hlt]
    rfl
  · rw [List.getElem?_eq_none, List.getElem?_eq_none]
    · omega
    · simpa using hi

theorem zipWith_add_map {α : Type} (f g : α → ℚ) :
    ∀ l : List α,
      List.zipWith (· + ·) (l.map f) (l.map g) = l.map (fun i => f i + g i)
  | [] => rfl
  | a :: l => by simp [zipWith_add_map f g l]

end PocketTTS

namespace PocketTTS

theorem narrow_rank1_data {t : Tq} {P s L : ℕ} (ht : t.dims = [P]) (h : s + L ≤ P) :
    t.narrow 0 s L = .ok ⟨[L], (List.range L).map (fun i => t.data.getD (s + i) 0)⟩ := by
  unfold Tq.narrow
  rw [ht]
  rw [if_pos ⟨by simp, by simpa using h⟩]
  unfold Tq.ofFn
  simp only [List.set_cons_zero, Except.ok.injEq, Tq.mk.injEq, List.prod_cons,
    List.prod_nil, Nat.mul_one, true_and]
  apply List.map_congr_left
  intro i hi
  simp only [unflattenIdx, List.prod_nil, Nat.div_one, List.set_cons_zero,
    List.getD_cons_zero, Tq.at', flattenIdx, ht, List.prod_nil, Nat.mul_one]
  rw [List.getD_eq_getElem?_getD, List.get?_eq_getElem?, Nat.add_comm i s]
  rfl

theorem narrow_row_data {t : Tq} {T s L : ℕ} (ht : t.dims = [1, T]) (h : s + L ≤ T) :
    t.narrow 1 s L = .ok ⟨[1, L], (List.range L).map (fun i => t.data.getD (s + i) 0)⟩ := by
  unfold Tq.narrow
  rw [ht]
  rw [if_pos ⟨by simp, by simpa using h⟩]
  unfold Tq.ofFn
  simp only [List.set_cons_succ, List.set_cons_zero, Except.ok.injEq, Tq.mk.injEq,
    List.prod_cons, List.prod_nil, Nat.mul_one, Nat.one_mul, true_and]
  apply List.map_congr_left
  intro i hi
  have hiL : i < L := List.mem_range.mp hi
  simp only [unflattenIdx, List.prod_cons, List.prod_nil, Nat.mul_one, Nat.div_one,
    Nat.div_eq_of_lt hiL, Nat.mod_eq_of_lt hiL, List.set_cons_succ, List.set_cons_zero,
    List.getD_cons_succ, List.getD_cons_zero, Tq.at', flattenIdx, ht,
    Nat.zero_mul, Nat.mul_one, Nat.zero_add, Nat.add_zero]
  rw [List.getD_eq_getElem?_getD, List.get?_eq_getElem?, Nat.add_comm i s]

theorem squeeze0_data {L : ℕ} (d : List ℚ) :
    Tq.squeeze ⟨[1, L], d⟩ 0 = .ok ⟨[L], d⟩ := by
  unfold Tq.squeeze
  rw [if_pos ⟨rfl, by simp⟩]
  rfl

theorem unsqueeze0_data {L : ℕ} (d : List ℚ) :
    Tq.unsqueeze ⟨[L], d⟩ 0 = .ok ⟨[1, L], d⟩ := by
  unfold Tq.unsqueeze
  rw [if_pos (by simp)]
  rfl

theorem sameAdd_rank1 {L : ℕ} (d1 d2 : List ℚ) :
    Tq.sameAdd ⟨[L], d1⟩ ⟨[L], d2⟩ = .ok ⟨[L], List.zipWith (· + ·) d1 d2⟩ := by
  simp [Tq.sameAdd, Tq.sameBin]

theorem broadcastMul_rank1 {L : ℕ} (d1 d2 : List ℚ) :
    Tq.broadcastMul ⟨[L], d1⟩ ⟨[L], d2⟩ =
      .ok ⟨[L], (List.range L).map (fun i => d1.getD i 0 * d2.getD i 0)⟩ := by
  unfold Tq.broadcastMul Tq.broadcastBin
  have hb : Tq.broadcastDims [L] [L] = some [L] := by
    simp [Tq.broadcastDims, Tq.bcastRev]
  rw [hb]
  unfold Tq.ofFn
  simp only [Except.ok.injEq, Tq.mk.injEq, List.prod_cons, List.prod_nil,
    Nat.mul_one, true_and]
  apply List.map_congr_left
  intro i hi
  have hiL : i < L := List.mem_range.mp hi
  have hrange1 : List.range ([L].length) = [0] := rfl
  have hidx : ∀ dd : List ℚ,
      Tq.atBroadcast ⟨[L], dd⟩ ([L].length) (unflattenIdx [L] i) = dd.getD i 0 := by
    intro dd
    simp only [Tq.atBroadcast, unflattenIdx, List.prod_nil, Nat.div_one,
      Nat.sub_self, List.drop_zero, hrange1, List.map_cons, List.map_nil,
      List.getD_cons_zero]
    by_cases hL1 : L = 1
    · subst hL1
      have hi0 : i = 0 := by omega
      subst hi0
      simp [Tq.at', flattenIdx, List.getD_eq_getElem?_getD, List.get?_eq_getElem?]
    · rw [if_neg (by simpa using hL1)]
      simp [Tq.at', flattenIdx, List.getD_eq_getElem?_getD, List.get?_eq_getElem?]
  rw [hidx d1, hidx d2]

theorem catTwo_row_data {L M : ℕ} (d1 d2 : List ℚ) :
    Tq.catTwo 1 ⟨[1, L], d1⟩ ⟨[1, M], d2⟩ =
      .ok ⟨[1, L + M], (List.range (L + M)).map
        (fun i => if i < L then d1.getD i 0 else d2.getD (i - L) 0)⟩ := by
  unfold Tq.catTwo
  rw [if_pos ?hc]
  case hc =>
    refine ⟨by simp, rfl, ?_⟩
    intro i hi hne
    have h2 : i < 2 := by simpa using hi
    interval_cases i
    · rfl
    · exact absurd rfl hne
  unfold Tq.ofFn
  simp only [List.set_cons_succ, List.set_cons_zero, List.getD_cons_succ,
    List.getD_cons_zero, Except.ok.injEq, Tq.mk.injEq, List.prod_cons,
    List.prod_nil, Nat.mul_one, Nat.one_mul, true_and]
  apply List.map_congr_left
  intro i hi
  have hiLM : i < L + M := List.mem_range.mp hi
  simp only [unflattenIdx, List.prod_cons, List.prod_nil, Nat.mul_one, Nat.div_one,
    Nat.div_eq_of_lt hiLM, Nat.mod_eq_of_lt hiLM, List.getD_cons_succ,
    List.getD_cons_zero, List.set_cons_succ, List.set_cons_zero]
  by_cases hiL : i < L
  · rw [if_pos hiL, if_pos hiL]
    simp [Tq.at', flattenIdx, List.getD_eq_getElem?_getD, List.get?_eq_getElem?]
  · rw [if_neg hiL, if_neg hiL]
    simp [Tq.at', flattenIdx, List.getD_eq_getElem?_getD, List.get?_eq_getElem?]

theorem dim1_of_dims {t : Tq} {a T : ℕ} (ht : t.dims = [a, T]) : t.dim 1 = .ok T := by
  simp [Tq.dim, ht]

theorem dim0_of_dims1 {t : Tq} {P : ℕ} (ht : t.dims = [P]) : t.dim 0 = .ok P := by
  simp [Tq.dim, ht]

end PocketTTS

namespace PocketTTS

/-- C4: with a previous tail of length at least `overlap_samples > 0` and a
decoded chunk of at least `overlap_samples` samples, `decode_streaming` emits
exactly the spec crossfade — the tail's trailing `overlap_samples` on a linear
down-ramp summed with the chunk's leading `overlap_samples` on a linear
up-ramp, spliced with the untouched remainder — and returns as the next tail
the last `overlap_samples` of the un-blended chunk; a first chunk (no previous
tail) is emitted unmodified while that same tail is still saved. -/
theorem C4_streaming_crossfade {m : MimiDecoder} {ops : NumOps}
    {latents audio prev : Tq} {T P L : ℕ}
    (hfwd : m.forward ops latents = .ok audio)
    (ha : audio.dims = [1, T]) (hal : audio.data.length = T)
    (hp : prev.dims = [P]) (hpl : prev.data.length = P)
    (hL0 : 0 < L) (hLP : L ≤ P) (hLT : L ≤ T) :
    m.decode_streaming ops latents L (some prev) =
      .ok (⟨[1, T], crossfadeSpec prev.data audio.data L⟩,
           ⟨[L], audio.data.drop (T - L)⟩) ∧
    m.decode_streaming ops latents L none =
      .ok (audio, ⟨[L], audio.data.drop (T - L)⟩) := by
  have hdim1 : audio.dim 1 = .ok T := dim1_of_dims ha
  have hdim0 : prev.dim 0 = .ok P := dim0_of_dims1 hp
  have hmin : min (min L P) T = L := by omega
  have hTLL : T - (T - L) = L := by omega
  constructor
  · unfold MimiDecoder.decode_streaming
    rw [hfwd]
    simp only [bind, Except.bind]
    rw [hdim1]
    simp only [bind, Except.bind]
    rw [hdim0]
    simp only [bind, Except.bind]
    rw [hmin]
    rw [if_pos hL0]
    rw [narrow_rank1_data hp (by omega)]
    simp only []
    rw [narrow_row_data ha (by omega)]
    simp only []
    rw [squeeze0_data]
    simp only []
    rw [broadcastMul_rank1]
    simp only []
    rw [broadcastMul_rank1]
    simp only []
    rw [sameAdd_rank1]
    simp only []
    rw [narrow_row_data ha (by omega)]
    simp only []
    rw [unsqueeze0_data]
    simp only []
    rw [catTwo_row_data]
    simp only []
    rw [narrow_row_data ha (by omega)]
    simp only []
    rw [squeeze0_data]
    simp only []
    simp only [Except.ok.injEq, Prod.mk.injEq, Tq.mk.injEq]
    refine ⟨⟨?_, ?_⟩, ?_, ?_⟩
    · rw [show L + (T - L) = T from by omega]
    · rw [List.range_add, List.map_append, List.map_map]
      unfold crossfadeSpec
      rw [hpl]
      congr 1
      · apply List.map_congr_left
        intro i hi
        have hiL : i < L := List.mem_range.mp hi
        rw [if_pos hiL]
        rw [zipWith_add_map]
        simp only [rangeMap_getD _ hiL]
        try simp only [rangeMap_getD _ hiL]
        try simp only [Function.comp, Nat.zero_add]
      · refine Eq.trans (List.map_congr_left ?_)
          (rangeMap_getD_drop audio.data L (T - L) (by omega))
        intro i hi
        have hiTL : i < T - L := List.mem_range.mp hi
        simp only [Function.comp]
        rw [if_neg (by omega)]
        rw [Nat.add_sub_cancel_left]
        rw [rangeMap_getD _ hiTL]
    · rw [hTLL]
    · rw [hTLL]
      exact rangeMap_getD_drop audio.data (T - L) L (by omega)
  · unfold MimiDecoder.decode_streaming
    rw [hfwd]
    simp only [bind, Except.bind]
    rw [hdim1]
    simp only [bind, Except.bind]
    rw [narrow_row_data ha (by omega)]
    simp only []
    rw [squeeze0_data]
    simp only []
    simp only [Except.ok.injEq, Prod.mk.injEq, Tq.mk.injEq, true_and]
    refine ⟨?_, ?_⟩
    · rw [hTLL]
    · rw [hTLL]
      exact rangeMap_getD_drop audio.data (T - L) L (by omega)


/-- Witness: the tiny Mimi decoder on a 2-frame latent input (4 output
samples), previous tail `[10, 20]`, overlap 2. -/
theorem C4_streaming_crossfade_witness :
    mimiTiny.decode_streaming simpleOps ⟨[1, 2, 2], [1, 2, 3, 4]⟩ 2
        (some ⟨[2], [10, 20]⟩) =
      .ok (⟨[1, 4], crossfadeSpec [10, 20] audioC4.data 2⟩,
           ⟨[2], audioC4.data.drop (4 - 2)⟩) ∧
    mimiTiny.decode_streaming simpleOps ⟨[1, 2, 2], [1, 2, 3, 4]⟩ 2 none =
      .ok (audioC4, ⟨[2], audioC4.data.drop (4 - 2)⟩) := by
  have hfwd : mimiTiny.forward simpleOps ⟨[1, 2, 2], [1, 2, 3, 4]⟩ = .ok audioC4 := by
    decide!
  exact C4_streaming_crossfade hfwd (by decide!) (by decide!) rfl rfl
    (by decide) (by decide) (by decide!)

end PocketTTS

namespace PocketTTS

/-! ## Length lemmas for the SEANet decoder chain (C5) -/

theorem conv1dForward_ok_dims {c : Conv1dM} {x y : Tq} {cout cin k b cx l : ℕ}
    (hw : c.weight.dims = [cout, cin, k]) (hx : x.dims = [b, cx, l])
    (h : conv1dForward c x = .ok y) :
    y.dims = [b, cout, (l + 2 * c.padding - c.dilation * (k - 1) - 1) / c.stride + 1] := by
  unfold conv1dForward at h
  rw [hw, hx] at h
  simp only [] at h
  split at h
  · cases h
    rfl
  · exact Except.noConfusion h

theorem convT_ok_dims {c : ConvTranspose1dM} {x y : Tq} {cin cout k b cx l : ℕ}
    (hw : c.weight.dims = [cin, cout, k]) (hx : x.dims = [b, cx, l])
    (h : convTranspose1dForward c x = .ok y) :
    y.dims = [b, cout,
      (l - 1) * c.stride + c.dilation * (k - 1) + c.output_padding + 1 - 2 * c.padding] := by
  unfold convTranspose1dForward at h
  rw [hw, hx] at h
  simp only [] at h
  split at h
  · cases h
    rfl
  · exact Except.noConfusion h

theorem causalConv_ok_dims {cc : CausalConv1d} {x y : Tq} {cout cin k b cx l : ℕ}
    (hw : cc.conv.weight.dims = [cout, cin, k]) (hx : x.dims = [b, cx, l])
    (h : cc.forward x = .ok y) :
    y.dims = [b, cout, l] := by
  unfold CausalConv1d.forward at h
  rw [bindE_ok] at h
  obtain ⟨y0, hy0, h⟩ := h
  rw [bindE_ok] at h
  obtain ⟨sl, hsl, h⟩ := h
  have hd := dim_ok hsl
  have hsl2 : sl = l := by
    rw [hx] at hd
    exact (by simpa using hd : l = sl).symm
  have hy0d := conv1dForward_ok_dims hw hx hy0
  have hfin := narrow_ok_dims h
  rw [hfin, hy0d, hsl2]
  rfl

end PocketTTS

namespace PocketTTS

theorem seanetBlock_ok_dims {cin cout k s : ℕ} {vb : VB} {ops : NumOps} {x y : Tq}
    {b cx l : ℕ} (hx : x.dims = [b, cx, l])
    (h : (SEANetDecoderBlock.new cin cout k s vb).forward ops x = .ok y) :
    y.dims = [b, cout, (l - 1) * s + (s * 2 - 1) + 1 - 2 * (s / 2)] := by
  unfold SEANetDecoderBlock.forward at h
  rw [bindE_ok] at h
  obtain ⟨h1, hh1, h⟩ := h
  rw [bindE_ok] at h
  obtain ⟨h2, hh2, h⟩ := h
  rw [bindE_ok] at h
  obtain ⟨h3, hh3, h⟩ := h
  rw [pureE_ok] at h
  have hu : h1.dims = [b, cout, (l - 1) * s + 1 * (s * 2 - 1) + 0 + 1 - 2 * (s / 2)] := by
    unfold SEANetDecoderBlock.new ConvTranspose1d.forward at hh1
    exact convT_ok_dims rfl hx hh1
  have hu2 : h1.dims = [b, cout, (l - 1) * s + (s * 2 - 1) + 1 - 2 * (s / 2)] := by
    rw [hu, Nat.one_mul, Nat.add_zero]
  have hc1 : h2.dims = [b, cout, (l - 1) * s + (s * 2 - 1) + 1 - 2 * (s / 2)] := by
    unfold SEANetDecoderBlock.new at hh2
    exact causalConv_ok_dims rfl hu2 hh2
  have hc2 : h3.dims = [b, cout, (l - 1) * s + (s * 2 - 1) + 1 - 2 * (s / 2)] := by
    unfold SEANetDecoderBlock.new at hh3
    exact causalConv_ok_dims rfl (by rw [geluT, mapU_dims, hc1]) hh3
  rw [← h]
  rw [geluT, mapU_dims, hc2]

end PocketTTS

namespace PocketTTS

/-- C5 (amended): for a decoder built with the default stride schedule
`[8,5,4,2,2]` and 5 channel entries, a latent input with `n ≥ 1` frames
decodes to `320·n + 8` samples — not `n` times the reported upsampling
ratio: only `channels.len() - 1 = 4` blocks exist (strides 8,5,4,2; the
trailing stride 2 is never used), the stride-5 transposed convolution
maps `l` frames to `5·l + 1` samples, and the remaining blocks amplify
the extra sample to `+8` — while `upsampling_ratio()` still reports the
product of all five strides, 640. -/
theorem C5_output_length {cfg : SEANetConfig} {vb : VB} {ops : NumOps}
    {a n c : ℕ} {x y : Tq}
    (hch : cfg.channels.length = 5) (hst : cfg.strides = [8, 5, 4, 2, 2])
    (hn : 1 ≤ n) (hx : x.dims = [a, n, c])
    (h : (SEANetDecoder.new cfg vb).forward ops x = .ok y) :
    y.dims = [a, 320 * n + 8] ∧
    (SEANetDecoder.new cfg vb).upsamplingFactor = 640 := by
  constructor
  · unfold SEANetDecoder.forward at h
    rw [bindE_ok] at h
    obtain ⟨x1, hx1, h⟩ := h
    rw [bindE_ok] at h
    obtain ⟨x2, hx2, h⟩ := h
    rw [bindE_ok] at h
    obtain ⟨x3, hx3, h⟩ := h
    rw [bindE_ok] at h
    obtain ⟨x4, hx4, h⟩ := h
    have hx1d : x1.dims = [a, c, n] := by
      have := transpose_ok_dims hx1
      rw [hx] at this
      simpa using this
    have hx2d : x2.dims = [a, cfg.channels.getD 0 0, n] := by
      unfold SEANetDecoder.new at hx2
      exact causalConv_ok_dims rfl hx1d hx2
    have hblocks : (SEANetDecoder.new cfg vb).blocks =
        [SEANetDecoderBlock.new (cfg.channels.getD 0 0) (cfg.channels.getD 1 0)
           (cfg.kernel_sizes.getD 0 0) 8 (vb.pp ("blocks." ++ toString 0)),
         SEANetDecoderBlock.new (cfg.channels.getD 1 0) (cfg.channels.getD 2 0)
           (cfg.kernel_sizes.getD 1 0) 5 (vb.pp ("blocks." ++ toString 1)),
         SEANetDecoderBlock.new (cfg.channels.getD 2 0) (cfg.channels.getD 3 0)
           (cfg.kernel_sizes.getD 2 0) 4 (vb.pp ("blocks." ++ toString 2)),
         SEANetDecoderBlock.new (cfg.channels.getD 3 0) (cfg.channels.getD 4 0)
           (cfg.kernel_sizes.getD 3 0) 2 (vb.pp ("blocks." ++ toString 3))] := by
      unfold SEANetDecoder.new
      simp only [hch, hst]
      rfl
    rw [hblocks] at hx3
    simp only [List.foldlM] at hx3
    rw [bindE_ok] at hx3
    obtain ⟨y1, hy1, hx3⟩ := hx3
    rw [bindE_ok] at hx3
    obtain ⟨y2, hy2, hx3⟩ := hx3
    rw [bindE_ok] at hx3
    obtain ⟨y3, hy3, hx3⟩ := hx3
    rw [bindE_ok] at hx3
    obtain ⟨y4, hy4, hx3⟩ := hx3
    rw [pureE_ok] at hx3
    have hy1d := seanetBlock_ok_dims (by rw [geluT, mapU_dims, hx2d]) hy1
    have hy2d := seanetBlock_ok_dims hy1d hy2
    have hy3d := seanetBlock_ok_dims hy2d hy3
    have hy4d := seanetBlock_ok_dims hy3d hy4
    rw [hx3] at hy4d
    have hx4d : x4.dims = [a, 1, ((((n - 1) * 8 + (8 * 2 - 1) + 1 - 2 * (8 / 2) - 1) * 5 +
        (5 * 2 - 1) + 1 - 2 * (5 / 2) - 1) * 4 + (4 * 2 - 1) + 1 - 2 * (4 / 2) - 1) * 2 +
        (2 * 2 - 1) + 1 - 2 * (2 / 2)] := by
      unfold SEANetDecoder.new at hx4
      exact causalConv_ok_dims rfl hy4d hx4
    simp only [] at h
    have hyd := squeeze_ok_dims h
    rw [mapU_dims, hx4d] at hyd
    have hbig : ((((n - 1) * 8 + (8 * 2 - 1) + 1 - 2 * (8 / 2) - 1) * 5 +
        (5 * 2 - 1) + 1 - 2 * (5 / 2) - 1) * 4 + (4 * 2 - 1) + 1 - 2 * (4 / 2) - 1) * 2 +
        (2 * 2 - 1) + 1 - 2 * (2 / 2) = 320 * n + 8 := by omega
    rw [hbig] at hyd
    rw [hyd]
    rfl
  · simp only [SEANetDecoder.upsamplingFactor, SEANetDecoder.new, hst]
    rfl


/-- Witness: the 1-channel decoder with the default strides on a 2-frame
input produces 648 = 320·2 + 8 samples while reporting ratio 640. -/
theorem C5_output_length_witness :
    (decC5.forward simpleOps ⟨[1, 2, 1], [0, 0]⟩).map Tq.dims =
      .ok [1, 320 * 2 + 8] ∧ decC5.upsamplingFactor = 640 := by
  have hIsOk : (decC5.forward simpleOps ⟨[1, 2, 1], [0, 0]⟩).isOk = true := by decide!
  cases hE : decC5.forward simpleOps ⟨[1, 2, 1], [0, 0]⟩ with
  | error e =>
    rw [hE] at hIsOk
    exact Bool.noConfusion hIsOk
  | ok y =>
    have h := @C5_output_length cfgC5 vbZero simpleOps 1 2 1 ⟨[1, 2, 1], [0, 0]⟩ y
      rfl rfl (by decide) rfl hE
    rw [Except.map, h.1]
    exact ⟨rfl, h.2⟩

end PocketTTS

namespace PocketTTS

/-! ## Tokenizer round-trip lemmas (C9) -/

theorem idSetFold_length (l : List (String × ℕ)) (acc : List String) :
    (l.foldl (fun acc p => if p.2 < acc.length then acc.set p.2 p.1 else acc) acc).length =
      acc.length := by
  induction l generalizing acc with
  | nil => rfl
  | cons q l ih =>
    simp only [List.foldl_cons]
    rw [ih]
    by_cases hq : q.2 < acc.length
    · rw [if_pos hq, List.length_set]
    · rw [if_neg hq]

theorem idSetFold_get_other (l : List (String × ℕ)) (acc : List String) (id : ℕ)
    (hnm : id ∉ l.map Prod.snd) :
    (l.foldl (fun acc p => if p.2 < acc.length then acc.set p.2 p.1 else acc) acc).get? id =
      acc.get? id := by
  induction l generalizing acc with
  | nil => rfl
  | cons q l ih =>
    simp only [List.map_cons, List.mem_cons, not_or] at hnm
    simp only [List.foldl_cons]
    rw [ih _ hnm.2]
    by_cases hq : q.2 < acc.length
    · rw [if_pos hq, List.get?_eq_getElem?, List.get?_eq_getElem?,
        List.getElem?_set_ne (fun he => hnm.1 he.symm)]
    · rw [if_neg hq]

theorem idSetFold_get (l : List (String × ℕ)) :
    ∀ (acc : List String) (s : String) (id : ℕ),
    (∀ p ∈ l, p.2 < acc.length) → (l.map Prod.snd).Nodup → (s, id) ∈ l →
    (l.foldl (fun acc p => if p.2 < acc.length then acc.set p.2 p.1 else acc) acc).get? id =
      some s := by
  induction l with
  | nil => intro acc s id _ _ hmem; exact absurd hmem (List.not_mem_nil _)
  | cons q l ih =>
    intro acc s id hlt hnd hmem
    simp only [List.map_cons, List.nodup_cons] at hnd
    simp only [List.foldl_cons]
    have hqlt : q.2 < acc.length := hlt q (by simp)
    rw [if_pos hqlt]
    rcases List.mem_cons.mp hmem with heq | hmem2
    · have hq1 : q.1 = s := by rw [← heq]
      have hq2 : q.2 = id := by rw [← heq]
      rw [hq1, hq2]
      have hnm : id ∉ l.map Prod.snd := by
        rw [← hq2]
        exact hnd.1
      rw [idSetFold_get_other l _ id hnm]
      rw [List.get?_eq_getElem?, List.getElem?_set_self (hq2 ▸ hqlt)]
    · exact ih (acc.set q.2 q.1) s id
        (fun p hp => by rw [List.length_set]; exact hlt p (by simp [hp])) hnd.2 hmem2

theorem buildIdToToken_get {vocab : List (String × ℕ)} {s : String} {id : ℕ}
    (hids : ∀ p ∈ vocab, p.2 < vocab.length)
    (hnodup : (vocab.map Prod.snd).Nodup) (hmem : (s, id) ∈ vocab) :
    (buildIdToToken vocab).get? id = some s := by
  unfold buildIdToToken
  exact idSetFold_get vocab _ s id
    (fun p hp => by rw [List.length_replicate]; exact hids p hp) hnodup hmem

theorem vocabGet_mem {vocab : List (String × ℕ)} {s : String} {id : ℕ}
    (h : vocabGet vocab s = some id) : (s, id) ∈ vocab := by
  unfold vocabGet at h
  cases hf : vocab.find? (fun p => p.1 == s) with
  | none => rw [hf] at h; exact Option.noConfusion h
  | some p =>
    rw [hf] at h
    simp only [Option.map_some', Option.some.injEq] at h
    have hp := List.find?_some hf
    have hmem := List.mem_of_find?_eq_some hf
    have hps : p.1 = s := by simpa using hp
    have : p = (s, id) := by
      cases p
      simp only [Prod.mk.injEq]
      exact ⟨hps, h⟩
    rw [← this]
    exact hmem

end PocketTTS

namespace PocketTTS

theorem tryLens_some {vocab : List (String × ℕ)} {cs : List Char} :
    ∀ {n l id : ℕ}, tryLens vocab cs n = some (l, id) →
    1 ≤ l ∧ l ≤ n ∧ vocabGet vocab (String.mk (cs.take l)) = some id := by
  intro n
  induction n with
  | zero =>
    intro l id h
    exact Option.noConfusion h
  | succ m ih =>
    intro l id h
    unfold tryLens at h
    cases hv : vocabGet vocab (String.mk (cs.take (m + 1))) with
    | some j =>
      rw [hv] at h
      simp only [Option.some.injEq, Prod.mk.injEq] at h
      obtain ⟨h1, h2⟩ := h
      subst h1
      subst h2
      exact ⟨by omega, Nat.le_refl _, hv⟩
    | none =>
      rw [hv] at h
      obtain ⟨a, b, c⟩ := ih h
      exact ⟨a, by omega, c⟩

theorem tryLens_isSome {vocab : List (String × ℕ)} {cs : List Char}
    (hc : (vocabGet vocab (String.mk (cs.take 1))).isSome = true) :
    ∀ {n : ℕ}, 1 ≤ n → (tryLens vocab cs n).isSome = true := by
  intro n
  induction n with
  | zero =>
    intro h
    omega
  | succ m ih =>
    intro _
    unfold tryLens
    cases hv : vocabGet vocab (String.mk (cs.take (m + 1))) with
    | some j => rfl
    | none =>
      by_cases hm : m = 0
      · subst hm
        rw [hv] at hc
        exact Bool.noConfusion hc
      · exact ih (by omega)

end PocketTTS

namespace PocketTTS

theorem strMk_append (a b : List Char) :
    String.mk a ++ String.mk b = String.mk (a ++ b) := rfl

theorem str_append_mk_nil (s : String) : s ++ String.mk [] = s := by
  cases s with
  | mk l =>
    show String.mk (l ++ []) = String.mk l
    rw [List.append_nil]

theorem str_append_append (x : String) (a b : List Char) :
    (x ++ String.mk a) ++ String.mk b = x ++ String.mk (a ++ b) := by
  cases x with
  | mk l =>
    show String.mk (l ++ a ++ b) = String.mk (l ++ (a ++ b))
    rw [List.append_assoc]

theorem decodeFold_encodeLoop {vocab : List (String × ℕ)}
    (hids : ∀ p ∈ vocab, p.2 < vocab.length)
    (hnodup : (vocab.map Prod.snd).Nodup) (unk : ℕ) :
    ∀ (N : ℕ) (cs : List Char) (acc : String), cs.length ≤ N →
    (∀ c ∈ cs, (vocabGet vocab (String.mk [c])).isSome = true) →
    (∀ id ∈ encodeLoop vocab unk cs,
        ¬(some id = vocabGet vocab "<s>" ∨ some id = vocabGet vocab "</s>" ∨
          some id = vocabGet vocab "<pad>")) →
    (encodeLoop vocab unk cs).foldl
      (fun text id =>
        if some id = vocabGet vocab "<s>" ∨ some id = vocabGet vocab "</s>" ∨
            some id = vocabGet vocab "<pad>" then text
        else
          match (buildIdToToken vocab).get? id with
          | some tok => text ++ tok
          | none => text.push (Char.ofNat 0xFFFD)) acc
      = acc ++ String.mk cs := by
  intro N
  induction N with
  | zero =>
    intro cs acc hlen _ _
    have hnil : cs = [] := List.eq_nil_of_length_eq_zero (by omega)
    subst hnil
    simp only [encodeLoop, List.foldl_nil]
    exact (str_append_mk_nil acc).symm
  | succ M ih =>
    intro cs acc hlen hchars hsent
    cases cs with
    | nil =>
      simp only [encodeLoop, List.foldl_nil]
      exact (str_append_mk_nil acc).symm
    | cons c rest =>
      cases hlm : longestMatch vocab (c :: rest) with
      | none =>
        exfalso
        have h1 : (vocabGet vocab (String.mk ((c :: rest).take 1))).isSome = true := by
          simpa using hchars c (by simp)
        have h2 := tryLens_isSome h1 (n := min 10 (c :: rest).length)
          (by simp)
        unfold longestMatch at hlm
        rw [hlm] at h2
        exact Bool.noConfusion h2
      | some li =>
        obtain ⟨l, id⟩ := li
        have hfacts : 1 ≤ l ∧ l ≤ min 10 (c :: rest).length ∧
            vocabGet vocab (String.mk ((c :: rest).take l)) = some id :=
          tryLens_some (by unfold longestMatch at hlm; exact hlm)
        obtain ⟨hl1, hlle, hvg⟩ := hfacts
        have heqn : encodeLoop vocab unk (c :: rest) =
            id :: encodeLoop vocab unk (rest.drop (l - 1)) := by
          conv_lhs => rw [encodeLoop]
          rw [hlm]
        have hdrop : rest.drop (l - 1) = (c :: rest).drop l := by
          cases l with
          | zero => omega
          | succ k => simp
        have hns := hsent id (by rw [heqn]; exact List.mem_cons_self _ _)
        have hget := buildIdToToken_get hids hnodup (vocabGet_mem hvg)
        rw [heqn, List.foldl_cons, if_neg hns, hget]
        rw [hdrop]
        rw [ih ((c :: rest).drop l) (acc ++ String.mk ((c :: rest).take l))
          (by simp only [List.length_drop, List.length_cons] at hlen ⊢; omega)
          (fun ch hch => hchars ch (List.drop_subset _ _ hch))
          (fun id2 hid2 => hsent id2
            (by rw [heqn]; exact List.mem_cons_of_mem _ (by rw [hdrop]; exact hid2)))]
        rw [str_append_append, List.take_append_drop]

end PocketTTS

namespace PocketTTS

theorem bosFold (vocab : List (String × ℕ)) (acc : String) :
    (vocabGet vocab "<s>").toList.foldl
      (fun text id =>
        if some id = vocabGet vocab "<s>" ∨ some id = vocabGet vocab "</s>" ∨
            some id = vocabGet vocab "<pad>" then text
        else
          match (buildIdToToken vocab).get? id with
          | some tok => text ++ tok
          | none => text.push (Char.ofNat 0xFFFD)) acc = acc := by
  cases hb : vocabGet vocab "<s>" with
  | none => rfl
  | some b =>
    simp only [Option.toList, List.foldl_cons, List.foldl_nil]
    rw [if_pos (Or.inl trivial)]

theorem eosFold (vocab : List (String × ℕ)) (acc : String) :
    (vocabGet vocab "</s>").toList.foldl
      (fun text id =>
        if some id = vocabGet vocab "<s>" ∨ some id = vocabGet vocab "</s>" ∨
            some id = vocabGet vocab "<pad>" then text
        else
          match (buildIdToToken vocab).get? id with
          | some tok => text ++ tok
          | none => text.push (Char.ofNat 0xFFFD)) acc = acc := by
  cases hb : vocabGet vocab "</s>" with
  | none => rfl
  | some b =>
    simp only [Option.toList, List.foldl_cons, List.foldl_nil]
    rw [if_pos (Or.inr (Or.inl trivial))]

/-- C9 (amended): `decode(encode(text))` returns exactly `text` for every
loaded vocabulary that contains each character of the text as a
single-character token, provided additionally that every vocabulary id is
in range (`id < vocab.len()`, else the reverse map built by `from_json`
drops the token and decode emits U+FFFD), ids are pairwise distinct, and
no id emitted for the text coincides with the `<s>`/`</s>`/`<pad>` ids
(which decode skips). The sentinel BOS/EOS ids that encode prepends and
appends are skipped by decode. -/
theorem C9_roundtrip {vocab : List (String × ℕ)} {text : String}
    (hids : ∀ p ∈ vocab, p.2 < vocab.length)
    (hnodup : (vocab.map Prod.snd).Nodup)
    (hchars : ∀ c ∈ text.toList, (vocabGet vocab (String.mk [c])).isSome = true)
    (hsent : ∀ id ∈ encodeLoop vocab ((vocabGet vocab "<unk>").getD 0) text.toList,
        ¬(some id = vocabGet vocab "<s>" ∨ some id = vocabGet vocab "</s>" ∨
          some id = vocabGet vocab "<pad>")) :
    (PocketTokenizer.fromVocab vocab).decode
      ((PocketTokenizer.fromVocab vocab).encode text) = text := by
  unfold PocketTokenizer.decode PocketTokenizer.encode PocketTokenizer.fromVocab
  simp only []
  rw [List.foldl_append, List.foldl_append]
  rw [bosFold, decodeFold_encodeLoop hids hnodup _ text.toList.length text.toList ""
    (Nat.le_refl _) hchars hsent, eosFold]
  rfl


/-- Witness: the vocabulary `{"a": 0, "b": 1}` round-trips `"ab"`. -/
theorem C9_roundtrip_witness :
    (PocketTokenizer.fromVocab [("a", 0), ("b", 1)]).decode
      ((PocketTokenizer.fromVocab [("a", 0), ("b", 1)]).encode "ab") = "ab" :=
  C9_roundtrip (by decide) (by decide) (by decide!) (by decide!)

end PocketTTS
